import Mathlib

/-!
# xv6 physical page allocator with per-frame reference counts (`kalloc.c`)

A shallow embedding of `kalloc.c` and a verification of its specification.

Modelling conventions.

* The target is 32-bit x86: addresses and `uint` are natural numbers below `2^32`,
  `int` is an integer in `[-2^31, 2^31)`; arithmetic that C performs on `int` is
  followed by `toInt32`, conversions to `uint` go through `toUint`.
* Memory is a byte map `Nat → Nat`.  A `struct run *` link is the 4-byte little-endian
  word at the address of the node (`struct run` has the single member `next`).
* `kmem` is the record `Kmem` (fields `use_lock`, `freelist`, `num_phys_page`); the
  byte memory holding the frames and a ghost log of gate events travel with it.
  The reference-count table is a total map from indices to `int` values.
* `panic` never returns: a call that panics yields `Outcome.fatal` carrying the
  message and the state at the point of the panic.
* Loops whose termination depends on the state take a fuel argument and yield
  `Outcome.fuelOut` (or `none`) when the fuel does not suffice.
* `end`, `PHYSTOP`, `V2P` and `get_index_pte` are declared outside `kalloc.c`; they
  are the fields of `Config`.
-/

namespace Kalloc

/-! ## Machine integers -/

/-- The page size `PGSIZE`. -/
def PGSIZE : Nat := 4096

/-- Two's-complement reduction of an integer to the range of a 32-bit `int`. -/
def toInt32 (x : Int) : Int := (x + 2147483648) % 4294967296 - 2147483648

/-- Conversion of an `int` to `uint`. -/
def toUint (x : Int) : Nat := (x % 4294967296).toNat

/-- The value is representable as a 32-bit `int`. -/
def isInt32 (x : Int) : Prop := -2147483648 ≤ x ∧ x < 2147483648

instance (x : Int) : Decidable (isInt32 x) := by unfold isInt32; infer_instance

/-- Modelled from the spec: the macro `PGROUNDUP` of `mmu.h`, a header outside
`kalloc.c`, which rounds a `uint` up to frame alignment, in 32-bit arithmetic. -/
def PGROUNDUP (sz : Nat) : Nat := (sz + PGSIZE - 1) % 4294967296 / PGSIZE * PGSIZE

/-! ## Environment, memory and allocator state -/

/-- What `kalloc.c` takes from the rest of the kernel: the linker symbol `end`, the
constant `PHYSTOP`, the macro `V2P` and the function `get_index_pte`, a deterministic
and pure function of the address.  The address of the object `end` is not the null
address. -/
structure Config where
  kend : Nat
  kend_pos : 0 < kend
  PHYSTOP : Nat
  V2P : Nat → Nat
  get_index_pte : Nat → Nat

/-- Events of the gate and of the shared allocator data, in program order. `access`
stands for one assignment or one condition that reads or writes `kmem.freelist`, a link
of the free list or `kmem.num_phys_page`. -/
inductive Ev where
  | initlock
  | acquire
  | release
  | access
  deriving DecidableEq, Repr

/-- The allocator state `kmem` together with the byte memory of the frames. -/
structure Kmem where
  use_lock : Int
  freelist : Nat
  num_phys_page : Nat → Int
  mem : Nat → Nat
  log : List Ev

/-- Result of a call that may panic or may not terminate. -/
inductive Outcome (α : Type) where
  | ret : α → Kmem → Outcome α
  | fatal : String → Kmem → Outcome α
  | fuelOut : Outcome α

/-- Update of one entry of the reference-count table. -/
def setCount (t : Nat → Int) (i : Nat) (c : Int) : Nat → Int :=
  fun j => if j = i then c else t j

/-- The library routine `memset(dst, c, n)` on the byte memory. -/
def memset (mem : Nat → Nat) (dst c n : Nat) : Nat → Nat :=
  fun a => if dst ≤ a ∧ a < dst + n then c % 256 else mem a

/-- Load of a 4-byte little-endian pointer, as in `r->next`. -/
def readPtr (mem : Nat → Nat) (a : Nat) : Nat :=
  mem a % 256 + 256 * (mem (a + 1) % 256) + 65536 * (mem (a + 2) % 256)
    + 16777216 * (mem (a + 3) % 256)

/-- Store of a 4-byte little-endian pointer, as in `r->next = p`. -/
def writePtr (mem : Nat → Nat) (a p : Nat) : Nat → Nat :=
  fun x =>
    if x = a then p % 256
    else if x = a + 1 then p / 256 % 256
    else if x = a + 2 then p / 65536 % 256
    else if x = a + 3 then p / 16777216 % 256
    else mem x

/-- Append one event to the ghost log. -/
def emit (e : Ev) (s : Kmem) : Kmem := { s with log := s.log ++ [e] }

/-- The statement `if(kmem.use_lock) acquire(&kmem.lock);`. -/
def lockIfUsed (s : Kmem) : Kmem := if s.use_lock ≠ 0 then emit Ev.acquire s else s

/-- The statement `if(kmem.use_lock) release(&kmem.lock);`. -/
def unlockIfUsed (s : Kmem) : Kmem := if s.use_lock ≠ 0 then emit Ev.release s else s

/-! ## The operations of `kalloc.c` -/

/-- The statement `kmem.num_phys_page[pte_num]--;`. -/
def decCount (pte_num : Nat) (s : Kmem) : Kmem :=
  emit Ev.access
    { s with num_phys_page :=
        setCount s.num_phys_page pte_num (toInt32 (s.num_phys_page pte_num - 1)) }

/-- The statement `if(kmem.num_phys_page[pte_num] < 0) kmem.num_phys_page[pte_num] = 0;`. -/
def clampCount (pte_num : Nat) (s : Kmem) : Kmem :=
  let s1 := emit Ev.access s
  if s1.num_phys_page pte_num < 0 then
    emit Ev.access { s1 with num_phys_page := setCount s1.num_phys_page pte_num 0 }
  else s1

/-- The function `kfree`. -/
def kfree (cfg : Config) (v : Nat) (s : Kmem) : Outcome Unit :=
  if v % PGSIZE ≠ 0 ∨ v < cfg.kend ∨ cfg.V2P v ≥ cfg.PHYSTOP then
    Outcome.fatal "kfree" s
  else
    let pte_num := cfg.get_index_pte v
    let s1 := lockIfUsed s
    if pte_num = 0 then
      Outcome.fatal "kfree: pte number could not be obtained" s1
    else
      let s2 := decCount pte_num s1
      let s3 := clampCount pte_num s2
      let s4 := emit Ev.access s3
      let s5 :=
        if s4.num_phys_page pte_num = 0 then
          let m := memset s4.mem v 1 PGSIZE
          let s6 := emit Ev.access { s4 with mem := writePtr m v s4.freelist }
          emit Ev.access { s6 with freelist := v }
        else s4
      Outcome.ret () (unlockIfUsed s5)

/-- The function `kalloc`; the returned address `0` is the null pointer. -/
def kalloc (cfg : Config) (s : Kmem) : Nat × Kmem :=
  let s1 := emit Ev.access (lockIfUsed s)
  let r := s1.freelist
  let s2 :=
    if r ≠ 0 then
      let index := cfg.get_index_pte r
      let s3 := emit Ev.access { s1 with num_phys_page := setCount s1.num_phys_page index 1 }
      emit Ev.access { s3 with freelist := readPtr s3.mem r }
    else s1
  (r, unlockIfUsed s2)

/-- The loop `while(r){ count++; r = r->next; }` of `getNumFreePages`. -/
def countLoop : Nat → Nat → Int → Kmem → Option (Int × Kmem)
  | 0, r, count, s => if r = 0 then some (count, s) else none
  | fuel + 1, r, count, s =>
    if r = 0 then some (count, s)
    else countLoop fuel (readPtr s.mem r) (toInt32 (count + 1)) (emit Ev.access s)

/-- The function `getNumFreePages`; `none` when the walk does not end within `fuel`
nodes. -/
def getNumFreePages (fuel : Nat) (s : Kmem) : Option (Int × Kmem) :=
  let s1 := emit Ev.access (lockIfUsed s)
  match countLoop fuel s1.freelist 0 s1 with
  | none => none
  | some (count, s2) => some (count, unlockIfUsed s2)

/-- The function `increment_page_num`. -/
def increment_page_num (cfg : Config) (virt_addr : Nat) (s : Kmem) : Nat × Kmem :=
  let pte_num := cfg.get_index_pte virt_addr
  let s1 := lockIfUsed s
  let s2 := emit Ev.access
    { s1 with num_phys_page :=
        setCount s1.num_phys_page pte_num (toInt32 (s1.num_phys_page pte_num + 1)) }
  let answer := toUint (s2.num_phys_page pte_num)
  (answer, unlockIfUsed (emit Ev.access s2))

/-- The function `get_phys_count`. -/
def get_phys_count (cfg : Config) (virt_addr : Nat) (s : Kmem) : Nat × Kmem :=
  let pte_num := cfg.get_index_pte virt_addr
  let s1 := lockIfUsed s
  let answer := toUint (s1.num_phys_page pte_num)
  (answer, unlockIfUsed (emit Ev.access s1))

/-- The function `decrement_page_num`. -/
def decrement_page_num (cfg : Config) (virt_addr : Nat) (s : Kmem) : Nat × Kmem :=
  let pte_num := cfg.get_index_pte virt_addr
  let s1 := lockIfUsed s
  let s2 := decCount pte_num s1
  let s3 := clampCount pte_num s2
  let answer := toUint (s3.num_phys_page pte_num)
  (answer, unlockIfUsed (emit Ev.access s3))

/-- The loop of `freerange`, from the pointer `p`; pointer arithmetic is 32-bit. -/
def freerangeLoop (cfg : Config) (vend : Nat) : Nat → Nat → Kmem → Outcome Unit
  | 0, p, s => if (p + PGSIZE) % 4294967296 ≤ vend then Outcome.fuelOut else Outcome.ret () s
  | fuel + 1, p, s =>
    if (p + PGSIZE) % 4294967296 ≤ vend then
      match kfree cfg p s with
      | Outcome.ret _ s1 =>
        freerangeLoop cfg vend fuel ((p + PGSIZE) % 4294967296)
          (emit Ev.access
            { s1 with num_phys_page := setCount s1.num_phys_page (cfg.get_index_pte p) 0 })
      | Outcome.fatal msg s1 => Outcome.fatal msg s1
      | Outcome.fuelOut => Outcome.fuelOut
    else Outcome.ret () s

/-- The function `freerange`. -/
def freerange (cfg : Config) (fuel : Nat) (vstart vend : Nat) (s : Kmem) : Outcome Unit :=
  freerangeLoop cfg vend fuel (PGROUNDUP vstart) s

/-- The function `kinit1`. -/
def kinit1 (cfg : Config) (fuel : Nat) (vstart vend : Nat) (s : Kmem) : Outcome Unit :=
  freerange cfg fuel vstart vend { emit Ev.initlock s with use_lock := 0 }

/-- The function `kinit2`. -/
def kinit2 (cfg : Config) (fuel : Nat) (vstart vend : Nat) (s : Kmem) : Outcome Unit :=
  match freerange cfg fuel vstart vend s with
  | Outcome.ret _ s1 => Outcome.ret () { s1 with use_lock := 1 }
  | Outcome.fatal msg s1 => Outcome.fatal msg s1
  | Outcome.fuelOut => Outcome.fuelOut

/-- The function `kalloc` called `n` times in a row: the returned addresses, in call
order, and the final state. -/
def kallocN (cfg : Config) : Nat → Kmem → List Nat × Kmem
  | 0, s => ([], s)
  | n + 1, s => ((kalloc cfg s).1 :: (kallocN cfg n (kalloc cfg s).2).1,
      (kallocN cfg n (kalloc cfg s).2).2)

/-! ## Specification vocabulary -/

/-- The `k` consecutive frame addresses `p, p + PGSIZE, ...`, in ascending order: the
addresses the loop of `freerange` visits when started at `p`. -/
def framesFrom (p : Nat) : Nat → List Nat
  | 0 => []
  | k + 1 => p :: framesFrom (p + PGSIZE) k

/-- The number of complete frames of the range that ends at `vend`, counted from the
rounded-up start of `vstart`. -/
def frameCount (vstart vend : Nat) : Nat := (vend - PGROUNDUP vstart) / PGSIZE

/-- The frames that `freerange(vstart, vend)` is to seed. -/
def seededFrames (vstart vend : Nat) : List Nat :=
  framesFrom (PGROUNDUP vstart) (frameCount vstart vend)

/-- The free list starting at pointer `p` in memory `mem` is the finite, null-terminated
sequence of nodes `l`. -/
def FreeChain (mem : Nat → Nat) : Nat → List Nat → Prop
  | p, [] => p = 0
  | p, a :: l => p = a ∧ a ≠ 0 ∧ FreeChain mem (readPtr mem a) l

instance FreeChain.instDecidable (mem : Nat → Nat) :
    (p : Nat) → (l : List Nat) → Decidable (FreeChain mem p l)
  | p, [] => by unfold FreeChain; infer_instance
  | p, a :: l => by
    unfold FreeChain
    have := FreeChain.instDecidable mem (readPtr mem a) l
    infer_instance

/-- The node reached from `p` after following `k` links (the null pointer has no
successor). -/
def nthNode (mem : Nat → Nat) (p : Nat) : Nat → Nat
  | 0 => p
  | k + 1 => if p = 0 then 0 else nthNode mem (readPtr mem p) k

/-- The frame at address `v` is linked on the free list that starts at `p`. -/
def OnFreeList (mem : Nat → Nat) (p v : Nat) : Prop :=
  v ≠ 0 ∧ ∃ k, nthNode mem p k = v

/-- The address passes every check of `kfree`. -/
def KfreeValid (cfg : Config) (v : Nat) : Prop :=
  v % PGSIZE = 0 ∧ cfg.kend ≤ v ∧ cfg.V2P v < cfg.PHYSTOP ∧ cfg.get_index_pte v ≠ 0

instance (cfg : Config) (v : Nat) : Decidable (KfreeValid cfg v) := by
  unfold KfreeValid; infer_instance

/-- One call of a public operation of the allocator. -/
inductive Op where
  | kalloc
  | kfree (v : Nat)
  | increment_page_num (v : Nat)
  | decrement_page_num (v : Nat)
  | get_phys_count (v : Nat)
  | getNumFreePages (fuel : Nat)

/-- The state after one call; `none` when the call does not return (it panics, or the
walk of `getNumFreePages` does not end within its fuel). -/
def step (cfg : Config) : Op → Kmem → Option Kmem
  | Op.kalloc, s => some (kalloc cfg s).2
  | Op.kfree v, s =>
    match kfree cfg v s with
    | Outcome.ret _ s1 => some s1
    | Outcome.fatal _ _ => none
    | Outcome.fuelOut => none
  | Op.increment_page_num v, s => some (increment_page_num cfg v s).2
  | Op.decrement_page_num v, s => some (decrement_page_num cfg v s).2
  | Op.get_phys_count v, s => some (get_phys_count cfg v s).2
  | Op.getNumFreePages fuel, s =>
    match getNumFreePages fuel s with
    | some (_, s1) => some s1
    | none => none

/-- The state after a sequence of calls, each of which returns. -/
def run (cfg : Config) : List Op → Kmem → Option Kmem
  | [], s => some s
  | op :: ops, s =>
    match step cfg op s with
    | some s1 => run cfg ops s1
    | none => none

/-- Every call of the sequence satisfies `ok` in the state in which it is made. -/
def AllCalls (cfg : Config) (ok : Op → Kmem → Prop) : List Op → Kmem → Prop
  | [], _ => True
  | op :: ops, s =>
    ok op s ∧
    match step cfg op s with
    | some s1 => AllCalls cfg ok ops s1
    | none => True

/-- Calls of `kalloc`, and calls of `kfree` on frames of the list `F`. -/
def AllocOrFree (F : List Nat) : Op → Kmem → Prop
  | Op.kalloc, _ => True
  | Op.kfree v, _ => v ∈ F
  | _, _ => False

/-- Calls of `kalloc`, and calls of `kfree` on frames of the list `F` whose reference count
is at least 1 when the call is made. -/
def AllocOrFreeOwned (cfg : Config) (F : List Nat) : Op → Kmem → Prop
  | Op.kalloc, _ => True
  | Op.kfree v, s => v ∈ F ∧ 1 ≤ s.num_phys_page (cfg.get_index_pte v)
  | _, _ => False

/-- Any public call, where `kfree` and `increment_page_num` are only applied to (32-bit)
addresses whose frame has a reference count of at least 1 when the call is made. -/
def OwnedCall (cfg : Config) : Op → Kmem → Prop
  | Op.kfree v, s => v < 4294967296 ∧ 1 ≤ s.num_phys_page (cfg.get_index_pte v)
  | Op.increment_page_num v, s => 1 ≤ s.num_phys_page (cfg.get_index_pte v)
  | _, _ => True

/-- The number of frames of `F` whose reference count is at least 1. -/
def ownedCount (cfg : Config) (F : List Nat) (s : Kmem) : Nat :=
  (F.filter (fun a => decide (1 ≤ s.num_phys_page (cfg.get_index_pte a)))).length

/-- Well-formed free list: `l` is the list of free frames, they are page-aligned frames
with pairwise distinct indices, and each has reference count 0. -/
def ListInv (cfg : Config) (s : Kmem) (l : List Nat) : Prop :=
  FreeChain s.mem s.freelist l ∧ s.freelist < 4294967296 ∧
  (l.map cfg.get_index_pte).Nodup ∧
  ∀ a ∈ l, a % PGSIZE = 0 ∧ s.num_phys_page (cfg.get_index_pte a) = 0

/-- Conservation invariant over the seeded frames `F`: the free list `l` is well-formed,
it holds exactly the frames of `F` whose reference count is 0, and every frame of `F` has
reference count 0 or 1. -/
def SeedInv (cfg : Config) (F : List Nat) (s : Kmem) (l : List Nat) : Prop :=
  ListInv cfg s l ∧
  (∀ a, a ∈ l ↔ a ∈ F ∧ s.num_phys_page (cfg.get_index_pte a) = 0) ∧
  ∀ a ∈ F, s.num_phys_page (cfg.get_index_pte a) = 0 ∨
    s.num_phys_page (cfg.get_index_pte a) = 1

/-! ## Concrete environment used for the examples -/

/-- An environment with the usual xv6 layout: kernel mapped at `0x80000000`, kernel image
ending at `0x80100000`, 224 MB of physical memory, frame index = physical address divided
by the page size. -/
def xv6 : Config where
  kend := 0x80100000
  kend_pos := by decide
  PHYSTOP := 0xE000000
  V2P := fun a => (a + 4294967296 - 0x80000000) % 4294967296
  get_index_pte := fun a => (a + 4294967296 - 0x80000000) % 4294967296 / 4096

/-- An allocator with nothing in it: empty free list, every reference count zero,
zeroed memory, gate disabled. -/
def emptyKmem : Kmem where
  use_lock := 0
  freelist := 0
  num_phys_page := fun _ => 0
  mem := fun _ => 0
  log := []

/-- The count left by the two statements "decrement, then clamp at zero". -/
def decClamp (c : Int) : Int := if toInt32 (c - 1) < 0 then 0 else toInt32 (c - 1)

/-- A state with the single free frame `0x80400000` (its link is null) and all reference
counts zero. -/
def oneFree : Kmem where
  use_lock := 1
  freelist := 0x80400000
  num_phys_page := fun _ => 0
  mem := fun _ => 0
  log := []

/-- A state in which the frame `0x80400000` is allocated and shared by `c` owners. -/
def sharedBy (c : Int) : Kmem where
  use_lock := 1
  freelist := 0
  num_phys_page := setCount (fun _ => 0) 0x400 c
  mem := fun _ => 7
  log := []

/-- The state reached from `emptyKmem` by one call `kfree(0x80400000)`, up to the ghost
log: the frame is poisoned, linked to the old (null) head and is the head of the free
list. -/
def freedOnce : Kmem where
  use_lock := 0
  freelist := 0x80400000
  num_phys_page := fun _ => 0
  mem := writePtr (memset (fun _ => 0) 0x80400000 1 PGSIZE) 0x80400000 0
  log := []

/-- The events of one gated operation that makes `n` accesses to the shared allocator
data: with the gate in use, one `acquire`, then the accesses, then one `release`; with the
gate not in use, the accesses alone. -/
def gateTrace (use_lock : Int) (n : Nat) : List Ev :=
  if use_lock ≠ 0 then Ev.acquire :: (List.replicate n Ev.access ++ [Ev.release])
  else List.replicate n Ev.access

/-- From `s` to `s'` the log grew by exactly `n` accesses and the gate flag is the same. -/
def Accesses (s s' : Kmem) (n : Nat) : Prop :=
  s'.log = s.log ++ List.replicate n Ev.access ∧ s'.use_lock = s.use_lock

/-- The Range Initializer in the words of the specification: for each frame of the list,
in order, call Free on it and reset its reference count to 0. -/
def seedEach (cfg : Config) : List Nat → Kmem → Outcome Unit
  | [], s => Outcome.ret () s
  | p :: ps, s =>
    match kfree cfg p s with
    | Outcome.ret _ s1 =>
      seedEach cfg ps
        (emit Ev.access
          { s1 with num_phys_page := setCount s1.num_phys_page (cfg.get_index_pte p) 0 })
    | Outcome.fatal msg s1 => Outcome.fatal msg s1
    | Outcome.fuelOut => Outcome.fuelOut

/-- The free list is well-formed: it is a finite list of frames (page-aligned addresses,
the head a 32-bit pointer) that contains no frame twice, and every frame on it has
reference count 0. -/
def FreeListWF (cfg : Config) (s : Kmem) : Prop :=
  s.freelist < 4294967296 ∧
  ∃ l, FreeChain s.mem s.freelist l ∧ l.Nodup ∧
    ∀ a ∈ l, a % PGSIZE = 0 ∧ s.num_phys_page (cfg.get_index_pte a) = 0

/-- The function `get_index_pte` maps distinct frames (page-aligned 32-bit addresses) to
distinct indices. -/
def IndexInjective (cfg : Config) : Prop :=
  ∀ a b, a < 4294967296 → b < 4294967296 → a % PGSIZE = 0 → b % PGSIZE = 0 →
    cfg.get_index_pte a = cfg.get_index_pte b → a = b

/-! ## Basic facts about the state accessors -/

@[simp] theorem emit_use_lock (e : Ev) (s : Kmem) : (emit e s).use_lock = s.use_lock := rfl
@[simp] theorem emit_freelist (e : Ev) (s : Kmem) : (emit e s).freelist = s.freelist := rfl
@[simp] theorem emit_num_phys_page (e : Ev) (s : Kmem) :
    (emit e s).num_phys_page = s.num_phys_page := rfl
@[simp] theorem emit_mem (e : Ev) (s : Kmem) : (emit e s).mem = s.mem := rfl

@[simp] theorem lockIfUsed_use_lock (s : Kmem) : (lockIfUsed s).use_lock = s.use_lock := by
  unfold lockIfUsed; split <;> rfl
@[simp] theorem lockIfUsed_freelist (s : Kmem) : (lockIfUsed s).freelist = s.freelist := by
  unfold lockIfUsed; split <;> rfl
@[simp] theorem lockIfUsed_num_phys_page (s : Kmem) :
    (lockIfUsed s).num_phys_page = s.num_phys_page := by
  unfold lockIfUsed; split <;> rfl
@[simp] theorem lockIfUsed_mem (s : Kmem) : (lockIfUsed s).mem = s.mem := by
  unfold lockIfUsed; split <;> rfl

@[simp] theorem unlockIfUsed_use_lock (s : Kmem) : (unlockIfUsed s).use_lock = s.use_lock := by
  unfold unlockIfUsed; split <;> rfl
@[simp] theorem unlockIfUsed_freelist (s : Kmem) : (unlockIfUsed s).freelist = s.freelist := by
  unfold unlockIfUsed; split <;> rfl
@[simp] theorem unlockIfUsed_num_phys_page (s : Kmem) :
    (unlockIfUsed s).num_phys_page = s.num_phys_page := by
  unfold unlockIfUsed; split <;> rfl
@[simp] theorem unlockIfUsed_mem (s : Kmem) : (unlockIfUsed s).mem = s.mem := by
  unfold unlockIfUsed; split <;> rfl

@[simp] theorem setCount_same (t : Nat → Int) (i : Nat) (c : Int) : setCount t i c i = c := by
  simp [setCount]

theorem setCount_other (t : Nat → Int) (i j : Nat) (c : Int) (h : j ≠ i) :
    setCount t i c j = t j := by
  simp [setCount, h]

theorem toInt32_of_isInt32 (x : Int) (h : isInt32 x) : toInt32 x = x := by
  unfold isInt32 at h
  unfold toInt32
  omega

theorem toUint_of_nonneg (x : Int) (h0 : 0 ≤ x) (h : x < 4294967296) :
    toUint x = x.toNat := by
  unfold toUint
  rw [Int.emod_eq_of_lt h0 h]

/-! ## Effect of `kalloc` -/

theorem kalloc_fst (cfg : Config) (s : Kmem) : (kalloc cfg s).1 = s.freelist := by
  simp [kalloc]

theorem kalloc_use_lock (cfg : Config) (s : Kmem) :
    (kalloc cfg s).2.use_lock = s.use_lock := by
  unfold kalloc
  by_cases h : s.freelist = 0 <;> simp [h]

theorem kalloc_mem (cfg : Config) (s : Kmem) : (kalloc cfg s).2.mem = s.mem := by
  unfold kalloc
  by_cases h : s.freelist = 0 <;> simp [h]

theorem kalloc_freelist (cfg : Config) (s : Kmem) (h : s.freelist ≠ 0) :
    (kalloc cfg s).2.freelist = readPtr s.mem s.freelist := by
  unfold kalloc
  simp [h]

theorem kalloc_num_phys_page (cfg : Config) (s : Kmem) (h : s.freelist ≠ 0) :
    (kalloc cfg s).2.num_phys_page
      = setCount s.num_phys_page (cfg.get_index_pte s.freelist) 1 := by
  unfold kalloc
  simp [h]

theorem kalloc_empty_freelist (cfg : Config) (s : Kmem) (h : s.freelist = 0) :
    (kalloc cfg s).2.freelist = 0 := by
  unfold kalloc
  simp [h]

theorem kalloc_empty_num_phys_page (cfg : Config) (s : Kmem) (h : s.freelist = 0) :
    (kalloc cfg s).2.num_phys_page = s.num_phys_page := by
  unfold kalloc
  simp [h]

/-! ## Effect of `kfree` -/

@[simp] theorem setCount_setCount (t : Nat → Int) (i : Nat) (c d : Int) :
    setCount (setCount t i c) i d = setCount t i d := by
  funext j
  by_cases h : j = i <;> simp [setCount, h]

@[simp] theorem decCount_use_lock (i : Nat) (s : Kmem) :
    (decCount i s).use_lock = s.use_lock := rfl
@[simp] theorem decCount_freelist (i : Nat) (s : Kmem) :
    (decCount i s).freelist = s.freelist := rfl
@[simp] theorem decCount_mem (i : Nat) (s : Kmem) : (decCount i s).mem = s.mem := rfl
@[simp] theorem decCount_num_phys_page (i : Nat) (s : Kmem) :
    (decCount i s).num_phys_page
      = setCount s.num_phys_page i (toInt32 (s.num_phys_page i - 1)) := rfl

@[simp] theorem clampCount_use_lock (i : Nat) (s : Kmem) :
    (clampCount i s).use_lock = s.use_lock := by
  unfold clampCount; simp only []; split <;> rfl
@[simp] theorem clampCount_freelist (i : Nat) (s : Kmem) :
    (clampCount i s).freelist = s.freelist := by
  unfold clampCount; simp only []; split <;> rfl
@[simp] theorem clampCount_mem (i : Nat) (s : Kmem) : (clampCount i s).mem = s.mem := by
  unfold clampCount; simp only []; split <;> rfl
theorem clampCount_num_phys_page (i : Nat) (s : Kmem) :
    (clampCount i s).num_phys_page
      = if s.num_phys_page i < 0 then setCount s.num_phys_page i 0 else s.num_phys_page := by
  unfold clampCount; simp only [emit_num_phys_page]; split <;> rfl

theorem decClamp_nonneg (c : Int) : 0 ≤ decClamp c := by
  unfold decClamp; split <;> omega

theorem decClamp_le_one (c : Int) (h1 : -2147483648 < c) (h2 : c ≤ 1) : decClamp c = 0 := by
  unfold decClamp toInt32; split <;> omega

theorem decClamp_ge_two (c : Int) (h1 : 2 ≤ c) (h2 : c < 2147483648) : decClamp c = c - 1 := by
  unfold decClamp toInt32; split <;> omega

theorem dec_clamp_num_phys_page (i : Nat) (s : Kmem) :
    (clampCount i (decCount i s)).num_phys_page
      = setCount s.num_phys_page i (decClamp (s.num_phys_page i)) := by
  rw [clampCount_num_phys_page]
  simp only [decCount_num_phys_page, setCount_same, setCount_setCount, decClamp]
  split <;> rfl

/-- A call of `kfree` on an address that passes all checks returns, and its effect is
determined by the count left after the clamped decrement. -/
theorem kfree_valid (cfg : Config) (v : Nat) (s : Kmem) (hv : KfreeValid cfg v) :
    ∃ s', kfree cfg v s = Outcome.ret () s' ∧ s'.use_lock = s.use_lock ∧
      s'.num_phys_page = setCount s.num_phys_page (cfg.get_index_pte v)
        (decClamp (s.num_phys_page (cfg.get_index_pte v))) ∧
      (decClamp (s.num_phys_page (cfg.get_index_pte v)) = 0 →
        s'.freelist = v ∧ s'.mem = writePtr (memset s.mem v 1 PGSIZE) v s.freelist) ∧
      (decClamp (s.num_phys_page (cfg.get_index_pte v)) ≠ 0 →
        s'.freelist = s.freelist ∧ s'.mem = s.mem) := by
  obtain ⟨h1, h2, h3, h4⟩ := hv
  have hc : ¬ (v % PGSIZE ≠ 0 ∨ v < cfg.kend ∨ cfg.V2P v ≥ cfg.PHYSTOP) := by
    intro h
    rcases h with h | h | h
    · exact h h1
    · omega
    · omega
  unfold kfree
  rw [if_neg hc]
  simp only [if_neg h4]
  refine ⟨_, rfl, ?_, ?_, ?_, ?_⟩
  · split <;> simp
  · simp only [emit_num_phys_page, dec_clamp_num_phys_page, lockIfUsed_num_phys_page,
      setCount_same]
    split <;> simp [dec_clamp_num_phys_page]
  · intro h0
    simp only [emit_num_phys_page, dec_clamp_num_phys_page, lockIfUsed_num_phys_page,
      setCount_same, h0, if_true]
    simp
  · intro h0
    simp only [emit_num_phys_page, dec_clamp_num_phys_page, lockIfUsed_num_phys_page,
      setCount_same, if_neg h0]
    simp

theorem kfree_invalid (cfg : Config) (v : Nat) (s : Kmem)
    (h : v % PGSIZE ≠ 0 ∨ v < cfg.kend ∨ cfg.PHYSTOP ≤ cfg.V2P v) :
    kfree cfg v s = Outcome.fatal "kfree" s := by
  unfold kfree
  rw [if_pos]
  exact h

/-! ## Memory and free-list facts -/

theorem readPtr_lt (mem : Nat → Nat) (a : Nat) : readPtr mem a < 4294967296 := by
  unfold readPtr
  omega

theorem readPtr_writePtr (mem : Nat → Nat) (a p : Nat) :
    readPtr (writePtr mem a p) a = p % 4294967296 := by
  unfold readPtr writePtr
  simp only [if_true, Nat.add_right_eq_self, OfNat.ofNat_ne_zero, if_false, add_right_inj,
    OfNat.ofNat_ne_one, Nat.succ_ne_self, Nat.reduceEqDiff]
  omega

theorem readPtr_congr (m m' : Nat → Nat) (a : Nat)
    (h : ∀ x, a ≤ x → x < a + 4 → m' x = m x) : readPtr m' a = readPtr m a := by
  unfold readPtr
  rw [h a (by omega) (by omega), h (a + 1) (by omega) (by omega),
    h (a + 2) (by omega) (by omega), h (a + 3) (by omega) (by omega)]

theorem push_mem_outside (mem : Nat → Nat) (v p x : Nat) (h : x < v ∨ v + PGSIZE ≤ x) :
    writePtr (memset mem v 1 PGSIZE) v p x = mem x := by
  unfold PGSIZE at h
  unfold writePtr memset PGSIZE
  have h0 : x ≠ v := by omega
  have h1 : x ≠ v + 1 := by omega
  have h2 : x ≠ v + 2 := by omega
  have h3 : x ≠ v + 3 := by omega
  have h4 : ¬ (v ≤ x ∧ x < v + 4096) := by omega
  simp only [h0, h1, h2, h3, h4, if_false]

theorem push_mem_poison (mem : Nat → Nat) (v p x : Nat) (h1 : v + 4 ≤ x)
    (h2 : x < v + PGSIZE) : writePtr (memset mem v 1 PGSIZE) v p x = 1 := by
  unfold PGSIZE at h2
  unfold writePtr memset PGSIZE
  have e0 : x ≠ v := by omega
  have e1 : x ≠ v + 1 := by omega
  have e2 : x ≠ v + 2 := by omega
  have e3 : x ≠ v + 3 := by omega
  have e4 : v ≤ x ∧ x < v + 4096 := by omega
  simp only [e0, e1, e2, e3, e4, if_false, and_self, if_true]

theorem readPtr_push_other (mem : Nat → Nat) (v p a : Nat)
    (h : a + 4 ≤ v ∨ v + PGSIZE ≤ a) :
    readPtr (writePtr (memset mem v 1 PGSIZE) v p) a = readPtr mem a := by
  apply readPtr_congr
  intro x hx1 hx2
  apply push_mem_outside
  omega

theorem aligned_apart (a v : Nat) (ha : a % PGSIZE = 0) (hv : v % PGSIZE = 0) (hne : a ≠ v) :
    a + 4 ≤ v ∨ v + PGSIZE ≤ a := by
  unfold PGSIZE at *
  omega

theorem FreeChain_congr (m m' : Nat → Nat) (l : List Nat) :
    ∀ p, (∀ a ∈ l, readPtr m' a = readPtr m a) → FreeChain m p l → FreeChain m' p l := by
  induction l with
  | nil => intro p _ h; exact h
  | cons b t ih =>
    intro p hl h
    obtain ⟨h1, h2, h3⟩ := h
    refine ⟨h1, h2, ?_⟩
    rw [hl b (List.mem_cons_self b t)]
    exact ih _ (fun a ha => hl a (List.mem_cons_of_mem b ha)) h3

theorem FreeChain_unique (m : Nat → Nat) (l : List Nat) :
    ∀ p l', FreeChain m p l → FreeChain m p l' → l = l' := by
  induction l with
  | nil =>
    intro p l' h h'
    cases l' with
    | nil => rfl
    | cons b t =>
      obtain ⟨h1, h2, _⟩ := h'
      have h0 : p = 0 := h
      omega
  | cons a t ih =>
    intro p l' h h'
    obtain ⟨h1, h2, h3⟩ := h
    cases l' with
    | nil =>
      have h0 : p = 0 := h'
      omega
    | cons b t' =>
      obtain ⟨h1', _, h3'⟩ := h'
      have hab : a = b := by omega
      subst hab
      rw [ih _ _ h3 h3']

/-- Pushing the frame `v` (poison, then link to the old head `p`) in front of a list of
page-aligned frames that does not contain `v`. -/
theorem FreeChain_push (mem : Nat → Nat) (v p : Nat) (l : List Nat) (hv0 : v ≠ 0)
    (hp : p < 4294967296) (hv : v % PGSIZE = 0) (hl : FreeChain mem p l)
    (hal : ∀ a ∈ l, a % PGSIZE = 0) (hnot : v ∉ l) :
    FreeChain (writePtr (memset mem v 1 PGSIZE) v p) v (v :: l) := by
  refine ⟨rfl, hv0, ?_⟩
  rw [readPtr_writePtr, Nat.mod_eq_of_lt hp]
  apply FreeChain_congr mem _ l p _ hl
  intro a ha
  apply readPtr_push_other
  apply aligned_apart a v (hal a ha) hv
  intro h
  exact hnot (h ▸ ha)

theorem countLoop_null (fuel : Nat) (count : Int) (s : Kmem) :
    countLoop fuel 0 count s = some (count, s) := by
  cases fuel <;> simp [countLoop]

theorem getNumFreePages_empty (fuel : Nat) (s : Kmem) (h : s.freelist = 0) :
    ∃ s', getNumFreePages fuel s = some (0, s') := by
  unfold getNumFreePages
  simp only [emit_freelist, lockIfUsed_freelist, h, countLoop_null]
  exact ⟨_, rfl⟩

theorem kallocN_exhausted (cfg : Config) (n : Nat) :
    ∀ s : Kmem, s.freelist = 0 →
      (kallocN cfg n s).1 = List.replicate n 0 ∧ (kallocN cfg n s).2.freelist = 0 ∧
      (kallocN cfg n s).2.num_phys_page = s.num_phys_page ∧
      (kallocN cfg n s).2.use_lock = s.use_lock ∧ (kallocN cfg n s).2.mem = s.mem := by
  induction n with
  | zero => intro s h; exact ⟨rfl, h, rfl, rfl, rfl⟩
  | succ n ih =>
    intro s h
    obtain ⟨h1, h2, h3, h4, h5⟩ := ih (kalloc cfg s).2 (kalloc_empty_freelist cfg s h)
    refine ⟨?_, ?_, ?_, ?_, ?_⟩
    · show (kalloc cfg s).1 :: (kallocN cfg n (kalloc cfg s).2).1 = _
      rw [h1, kalloc_fst, h]
      rfl
    · exact h2
    · exact h3.trans (kalloc_empty_num_phys_page cfg s h)
    · exact h4.trans (kalloc_use_lock cfg s)
    · exact h5.trans (kalloc_mem cfg s)

theorem kfree_ret_valid (cfg : Config) (v : Nat) (s s' : Kmem)
    (h : kfree cfg v s = Outcome.ret () s') : KfreeValid cfg v := by
  unfold kfree at h
  split at h
  · cases h
  · rename_i hc
    simp only [] at h
    split at h
    · cases h
    · rename_i hz
      refine ⟨?_, ?_, ?_, hz⟩
      · by_contra hne; exact hc (Or.inl hne)
      · by_contra hne; exact hc (Or.inr (Or.inl (by omega)))
      · by_contra hne; exact hc (Or.inr (Or.inr (by omega)))

theorem KfreeValid.ne_zero {cfg : Config} {v : Nat} (h : KfreeValid cfg v) : v ≠ 0 := by
  have h1 := cfg.kend_pos
  have h2 := h.2.1
  omega

theorem FreeChain_self_loop (m : Nat → Nat) (a : Nat) (ha : a ≠ 0) (hloop : readPtr m a = a)
    (l : List Nat) : ¬ FreeChain m a l := by
  induction l with
  | nil => exact ha
  | cons b t ih =>
    intro h
    obtain ⟨h1, _, h3⟩ := h
    subst h1
    rw [hloop] at h3
    exact ih h3

theorem countLoop_self_loop (fuel : Nat) :
    ∀ (a : Nat) (count : Int) (s : Kmem), a ≠ 0 → readPtr s.mem a = a →
      countLoop fuel a count s = none := by
  induction fuel with
  | zero => intro a count s ha _; simp [countLoop, ha]
  | succ n ih =>
    intro a count s ha hloop
    simp only [countLoop, ha, if_false, hloop]
    exact ih a _ _ ha (by simpa using hloop)

theorem OnFreeList_head (m : Nat → Nat) (v : Nat) (h : v ≠ 0) : OnFreeList m v v :=
  ⟨h, 0, rfl⟩

theorem increment_use_lock (cfg : Config) (v : Nat) (s : Kmem) :
    (increment_page_num cfg v s).2.use_lock = s.use_lock := by
  simp [increment_page_num]

theorem increment_freelist (cfg : Config) (v : Nat) (s : Kmem) :
    (increment_page_num cfg v s).2.freelist = s.freelist := by
  simp [increment_page_num]

theorem increment_mem (cfg : Config) (v : Nat) (s : Kmem) :
    (increment_page_num cfg v s).2.mem = s.mem := by
  simp [increment_page_num]

theorem increment_num_phys_page (cfg : Config) (v : Nat) (s : Kmem) :
    (increment_page_num cfg v s).2.num_phys_page
      = setCount s.num_phys_page (cfg.get_index_pte v)
          (toInt32 (s.num_phys_page (cfg.get_index_pte v) + 1)) := by
  simp [increment_page_num]

theorem increment_fst (cfg : Config) (v : Nat) (s : Kmem) :
    (increment_page_num cfg v s).1
      = toUint (toInt32 (s.num_phys_page (cfg.get_index_pte v) + 1)) := by
  simp [increment_page_num]

theorem nthNode_null (m : Nat → Nat) (k : Nat) : nthNode m 0 k = 0 := by
  cases k <;> simp [nthNode]

theorem not_OnFreeList_null (m : Nat → Nat) (v : Nat) : ¬ OnFreeList m 0 v := by
  rintro ⟨hv, k, hk⟩
  rw [nthNode_null] at hk
  exact hv hk.symm

/-! ## Seeding by `freerange` and draining by `kalloc` -/

theorem framesFrom_ge (k : Nat) : ∀ p a, a ∈ framesFrom p k → p ≤ a := by
  induction k with
  | zero => intro p a h; cases h
  | succ k ih =>
    intro p a h
    rcases List.mem_cons.mp h with h | h
    · omega
    · have := ih _ _ h
      omega

theorem framesFrom_lt (k : Nat) : ∀ p a, a ∈ framesFrom p k → a + PGSIZE ≤ p + PGSIZE * k := by
  induction k with
  | zero => intro p a h; cases h
  | succ k ih =>
    intro p a h
    rcases List.mem_cons.mp h with h | h
    · subst h; unfold PGSIZE; omega
    · have := ih _ _ h
      unfold PGSIZE at *
      omega

theorem framesFrom_nodup (k : Nat) : ∀ p, (framesFrom p k).Nodup := by
  induction k with
  | zero => intro p; exact List.nodup_nil
  | succ k ih =>
    intro p
    refine List.nodup_cons.mpr ⟨?_, ih _⟩
    intro h
    have := framesFrom_ge k _ _ h
    unfold PGSIZE at this
    omega

theorem framesFrom_length (k : Nat) : ∀ p, (framesFrom p k).length = k := by
  induction k with
  | zero => intro p; rfl
  | succ k ih => intro p; simp [framesFrom, ih]

/-- The loop of `freerange` over `k` complete frames, none of which is on the free list
`l0` yet: it returns, and pushes the frames one after the other. -/
theorem freerangeLoop_seeds (cfg : Config) (vend : Nat) (k : Nat) :
    ∀ (fuel p : Nat) (s : Kmem) (l0 : List Nat), k ≤ fuel →
      PGSIZE * k ≤ vend - p → vend < p + PGSIZE * (k + 1) →
      p + PGSIZE * (k + 1) < 4294967296 →
      (∀ a ∈ framesFrom p k, KfreeValid cfg a) →
      (∀ a ∈ framesFrom p k, -2147483648 < s.num_phys_page (cfg.get_index_pte a) ∧
        s.num_phys_page (cfg.get_index_pte a) ≤ 1) →
      s.freelist < 4294967296 → FreeChain s.mem s.freelist l0 →
      (∀ a ∈ l0, a % PGSIZE = 0) → (∀ a ∈ framesFrom p k, a ∉ l0) →
      ∃ s', freerangeLoop cfg vend fuel p s = Outcome.ret () s' ∧
        FreeChain s'.mem s'.freelist ((framesFrom p k).reverse ++ l0) ∧
        s'.use_lock = s.use_lock ∧ s'.freelist < 4294967296 ∧
        (∀ j, s'.num_phys_page j
          = if j ∈ (framesFrom p k).map cfg.get_index_pte then 0 else s.num_phys_page j) := by
  induction k with
  | zero =>
    intro fuel p s l0 _ _ h2 h3 _ _ hhead hl _ _
    have hnot : ¬ ((p + PGSIZE) % 4294967296 ≤ vend) := by
      unfold PGSIZE at *
      omega
    refine ⟨s, ?_, by simpa [framesFrom] using hl, rfl, hhead, ?_⟩
    · cases fuel <;> simp [freerangeLoop, hnot]
    · intro j; simp [framesFrom]
  | succ k ih =>
    intro fuel p s l0 hfuel h1 h2 h3 hvalid hcnt hhead hl hal hnot
    obtain ⟨fuel, rfl⟩ : ∃ f, fuel = f + 1 := ⟨fuel - 1, by omega⟩
    have hmod : (p + PGSIZE) % 4294967296 = p + PGSIZE := by
      apply Nat.mod_eq_of_lt
      unfold PGSIZE at *
      omega
    have hgo : (p + PGSIZE) % 4294967296 ≤ vend := by
      rw [hmod]
      unfold PGSIZE at *
      omega
    have hpmem : p ∈ framesFrom p (k + 1) := List.mem_cons_self _ _
    have hpv := hvalid p hpmem
    obtain ⟨s1, hk, hul, hc1, hz1, _⟩ := kfree_valid cfg p s hpv
    have hd := decClamp_le_one _ (hcnt p hpmem).1 (hcnt p hpmem).2
    obtain ⟨hf1, hm1⟩ := hz1 hd
    have hp32 : p < 4294967296 := by
      unfold PGSIZE at h3
      omega
    have hchain1 : FreeChain s1.mem s1.freelist (p :: l0) := by
      rw [hf1, hm1]
      exact FreeChain_push s.mem p s.freelist l0 hpv.ne_zero hhead hpv.1 hl hal
        (hnot p hpmem)
    have hrest : ∀ a ∈ framesFrom (p + PGSIZE) k, a ∈ framesFrom p (k + 1) :=
      fun a ha => List.mem_cons_of_mem _ ha
    obtain ⟨s', hloop, hch', hul', hhead', hc'⟩ :=
      ih fuel (p + PGSIZE)
        (emit Ev.access
          { s1 with num_phys_page := setCount s1.num_phys_page (cfg.get_index_pte p) 0 })
        (p :: l0) (by omega)
        (by unfold PGSIZE at *; omega) (by unfold PGSIZE at *; omega)
        (by unfold PGSIZE at *; omega)
        (fun a ha => hvalid a (hrest a ha))
        (by
          intro a ha
          show -2147483648 < setCount s1.num_phys_page (cfg.get_index_pte p) 0 _ ∧
            setCount s1.num_phys_page (cfg.get_index_pte p) 0 _ ≤ 1
          rw [hc1, setCount_setCount]
          by_cases hi : cfg.get_index_pte a = cfg.get_index_pte p
          · rw [hi, setCount_same]; omega
          · rw [setCount_other _ _ _ _ hi]; exact hcnt a (hrest a ha))
        (by show s1.freelist < 4294967296; rw [hf1]; exact hp32)
        hchain1
        (by
          intro a ha
          rcases List.mem_cons.mp ha with h | h
          · rw [h]; exact hpv.1
          · exact hal a h)
        (by
          intro a ha hmem
          rcases List.mem_cons.mp hmem with h | h
          · have := framesFrom_ge k _ _ ha
            unfold PGSIZE at this
            omega
          · exact hnot a (hrest a ha) h)
    refine ⟨s', ?_, ?_, ?_, hhead', ?_⟩
    · rw [hmod] at hgo
      simp only [freerangeLoop, hmod, hgo, if_true, hk]
      exact hloop
    · simpa [framesFrom, List.append_assoc] using hch'
    · rw [hul']; exact hul
    · intro j
      rw [hc' j]
      show (if j ∈ _ then 0 else setCount s1.num_phys_page (cfg.get_index_pte p) 0 j) = _
      rw [hc1, setCount_setCount]
      by_cases hj : j = cfg.get_index_pte p
      · subst hj
        simp [framesFrom]
      · simp [framesFrom, hj, setCount_other _ _ _ _ hj]

/-- Draining: `kalloc` called once per node of the free list returns the nodes in list
order, empties the list and sets the count of each returned frame to 1. -/
theorem kallocN_chain (cfg : Config) (l : List Nat) :
    ∀ s : Kmem, FreeChain s.mem s.freelist l →
      (kallocN cfg l.length s).1 = l ∧ (kallocN cfg l.length s).2.freelist = 0 ∧
      (kallocN cfg l.length s).2.mem = s.mem ∧
      (kallocN cfg l.length s).2.use_lock = s.use_lock ∧
      (∀ j, (kallocN cfg l.length s).2.num_phys_page j
        = if j ∈ l.map cfg.get_index_pte then 1 else s.num_phys_page j) := by
  induction l with
  | nil =>
    intro s h
    exact ⟨rfl, h, rfl, rfl, fun j => by simp [kallocN]⟩
  | cons a t ih =>
    intro s h
    obtain ⟨h1, h2, h3⟩ := h
    have hne : s.freelist ≠ 0 := by rw [h1]; exact h2
    have hstep : FreeChain (kalloc cfg s).2.mem (kalloc cfg s).2.freelist t := by
      rw [kalloc_mem, kalloc_freelist cfg s hne, h1]
      exact h3
    obtain ⟨i1, i2, i3, i4, i5⟩ := ih (kalloc cfg s).2 hstep
    refine ⟨?_, i2, i3.trans (kalloc_mem cfg s), i4.trans (kalloc_use_lock cfg s), ?_⟩
    · show (kalloc cfg s).1 :: (kallocN cfg t.length (kalloc cfg s).2).1 = a :: t
      rw [i1, kalloc_fst, h1]
    · intro j
      show (kallocN cfg t.length (kalloc cfg s).2).2.num_phys_page j = _
      rw [i5 j, kalloc_num_phys_page cfg s hne, h1]
      by_cases hj : j = cfg.get_index_pte a
      · subst hj
        simp
      · simp [hj, setCount_other _ _ _ _ hj]

/-- Seeding an empty allocator: `freerange` returns, and the free list holds exactly the
frames of the range, last frame first; all reference counts are zero. -/
theorem freerange_seeds_empty (cfg : Config) (s0 : Kmem) (vstart vend fuel : Nat)
    (hempty : s0.freelist = 0) (hcounts : ∀ i, s0.num_phys_page i = 0)
    (hw1 : vend + PGSIZE < 4294967296) (hw2 : PGROUNDUP vstart + PGSIZE < 4294967296)
    (hvalid : ∀ a ∈ seededFrames vstart vend, KfreeValid cfg a)
    (hfuel : frameCount vstart vend ≤ fuel) :
    ∃ s1, freerange cfg fuel vstart vend s0 = Outcome.ret () s1 ∧
      FreeChain s1.mem s1.freelist (seededFrames vstart vend).reverse ∧
      s1.use_lock = s0.use_lock ∧ s1.freelist < 4294967296 ∧
      (∀ j, s1.num_phys_page j = 0) := by
  have hk1 : PGSIZE * frameCount vstart vend ≤ vend - PGROUNDUP vstart := by
    unfold frameCount PGSIZE
    omega
  have hk2 : vend < PGROUNDUP vstart + PGSIZE * (frameCount vstart vend + 1) := by
    unfold frameCount PGSIZE
    omega
  have hk3 : PGROUNDUP vstart + PGSIZE * (frameCount vstart vend + 1) < 4294967296 := by
    unfold frameCount PGSIZE at *
    omega
  obtain ⟨s1, hr, hch, hul, hhead, hc⟩ :=
    freerangeLoop_seeds cfg vend (frameCount vstart vend) fuel (PGROUNDUP vstart) s0 []
      hfuel hk1 hk2 hk3 hvalid
      (fun a _ => by rw [hcounts]; omega)
      (by rw [hempty]; omega) hempty (fun a ha => by cases ha)
      (fun a _ ha => by cases ha)
  refine ⟨s1, hr, by simpa using hch, hul, hhead, ?_⟩
  intro j
  rw [hc j, hcounts j]
  split <;> rfl

/-! ## Preservation of the well-formed free list -/

theorem decrement_fields (cfg : Config) (v : Nat) (s : Kmem) :
    (decrement_page_num cfg v s).2.mem = s.mem ∧
    (decrement_page_num cfg v s).2.freelist = s.freelist ∧
    (decrement_page_num cfg v s).2.use_lock = s.use_lock ∧
    (decrement_page_num cfg v s).2.num_phys_page
      = setCount s.num_phys_page (cfg.get_index_pte v)
          (decClamp (s.num_phys_page (cfg.get_index_pte v))) := by
  refine ⟨by simp [decrement_page_num], by simp [decrement_page_num],
    by simp [decrement_page_num], ?_⟩
  simp only [decrement_page_num, unlockIfUsed_num_phys_page, emit_num_phys_page,
    dec_clamp_num_phys_page, lockIfUsed_num_phys_page]

theorem get_phys_count_fields (cfg : Config) (v : Nat) (s : Kmem) :
    (get_phys_count cfg v s).2.mem = s.mem ∧
    (get_phys_count cfg v s).2.freelist = s.freelist ∧
    (get_phys_count cfg v s).2.use_lock = s.use_lock ∧
    (get_phys_count cfg v s).2.num_phys_page = s.num_phys_page := by
  simp [get_phys_count]

theorem countLoop_fields (fuel : Nat) :
    ∀ (r : Nat) (c : Int) (s : Kmem) (n : Int) (s' : Kmem),
      countLoop fuel r c s = some (n, s') →
      s'.mem = s.mem ∧ s'.freelist = s.freelist ∧ s'.use_lock = s.use_lock ∧
      s'.num_phys_page = s.num_phys_page := by
  induction fuel with
  | zero =>
    intro r c s n s' h
    unfold countLoop at h
    split at h
    · cases h; exact ⟨rfl, rfl, rfl, rfl⟩
    · cases h
  | succ fuel ih =>
    intro r c s n s' h
    unfold countLoop at h
    split at h
    · cases h; exact ⟨rfl, rfl, rfl, rfl⟩
    · obtain ⟨h1, h2, h3, h4⟩ := ih _ _ _ _ _ h
      exact ⟨h1, h2, h3, h4⟩

theorem step_kfree_some (cfg : Config) (v : Nat) (s s' : Kmem)
    (h : step cfg (Op.kfree v) s = some s') : kfree cfg v s = Outcome.ret () s' := by
  simp only [step] at h
  split at h
  · rename_i u s1 hk
    cases h
    exact hk
  · cases h
  · cases h

theorem step_getNumFreePages_some (cfg : Config) (fuel : Nat) (s s' : Kmem)
    (h : step cfg (Op.getNumFreePages fuel) s = some s') :
    ∃ n, getNumFreePages fuel s = some (n, s') := by
  simp only [step] at h
  split at h
  · rename_i n s1 hg
    cases h
    exact ⟨n, hg⟩
  · cases h

theorem getNumFreePages_fields (fuel : Nat) (s : Kmem) (n : Int) (s' : Kmem)
    (h : getNumFreePages fuel s = some (n, s')) :
    s'.mem = s.mem ∧ s'.freelist = s.freelist ∧ s'.use_lock = s.use_lock ∧
    s'.num_phys_page = s.num_phys_page := by
  unfold getNumFreePages at h
  simp only [] at h
  split at h
  · cases h
  · rename_i c s2 hc
    cases h
    obtain ⟨h1, h2, h3, h4⟩ := countLoop_fields fuel _ _ _ _ _ hc
    simp only [unlockIfUsed_mem, unlockIfUsed_freelist, unlockIfUsed_use_lock,
      unlockIfUsed_num_phys_page, h1, h2, h3, h4, emit_mem, emit_freelist, emit_use_lock,
      emit_num_phys_page, lockIfUsed_mem, lockIfUsed_freelist, lockIfUsed_use_lock,
      lockIfUsed_num_phys_page, and_self]

theorem ListInv_of_fields (cfg : Config) (s s' : Kmem) (l : List Nat) (h : ListInv cfg s l)
    (hm : s'.mem = s.mem) (hf : s'.freelist = s.freelist)
    (hc : ∀ a ∈ l, s'.num_phys_page (cfg.get_index_pte a) = 0) : ListInv cfg s' l := by
  obtain ⟨h1, h2, h3, h4⟩ := h
  refine ⟨by rw [hm, hf]; exact h1, by rw [hf]; exact h2, h3, ?_⟩
  intro a ha
  exact ⟨(h4 a ha).1, hc a ha⟩

theorem ListInv_kalloc (cfg : Config) (s : Kmem) (l : List Nat) (h : ListInv cfg s l) :
    ListInv cfg (kalloc cfg s).2 l.tail := by
  cases l with
  | nil =>
    have h0 : s.freelist = 0 := h.1
    apply ListInv_of_fields cfg s _ [] h (kalloc_mem cfg s)
    · rw [kalloc_empty_freelist cfg s h0, h0]
    · intro a ha; cases ha
  | cons a t =>
    obtain ⟨⟨h1, h2, h3⟩, _, hnd, hal⟩ := h
    have hne : s.freelist ≠ 0 := by rw [h1]; exact h2
    rw [List.map_cons, List.nodup_cons] at hnd
    refine ⟨?_, ?_, hnd.2, ?_⟩
    · rw [kalloc_mem, kalloc_freelist cfg s hne, h1]; exact h3
    · rw [kalloc_freelist cfg s hne]; exact readPtr_lt _ _
    · intro b hb
      refine ⟨(hal b (List.mem_cons_of_mem _ hb)).1, ?_⟩
      have hi : cfg.get_index_pte b ≠ cfg.get_index_pte a := by
        intro he
        exact hnd.1 (he ▸ List.mem_map_of_mem _ hb)
      rw [kalloc_num_phys_page cfg s hne, h1, setCount_other _ _ _ _ hi]
      exact (hal b (List.mem_cons_of_mem _ hb)).2

theorem ListInv_index_free (cfg : Config) (s : Kmem) (l : List Nat) (h : ListInv cfg s l)
    (v : Nat) (hv : s.num_phys_page (cfg.get_index_pte v) ≠ 0) :
    ∀ a ∈ l, cfg.get_index_pte a ≠ cfg.get_index_pte v := by
  intro a ha he
  apply hv
  rw [← he]
  exact (h.2.2.2 a ha).2

theorem ListInv_kfree (cfg : Config) (v : Nat) (s : Kmem) (l : List Nat)
    (h : ListInv cfg s l) (hv : KfreeValid cfg v) (hv32 : v < 4294967296)
    (hown : 1 ≤ s.num_phys_page (cfg.get_index_pte v)) :
    ∃ s', kfree cfg v s = Outcome.ret () s' ∧
      ((decClamp (s.num_phys_page (cfg.get_index_pte v)) = 0 ∧ ListInv cfg s' (v :: l)) ∨
       (decClamp (s.num_phys_page (cfg.get_index_pte v)) ≠ 0 ∧ ListInv cfg s' l)) ∧
      s'.num_phys_page = setCount s.num_phys_page (cfg.get_index_pte v)
        (decClamp (s.num_phys_page (cfg.get_index_pte v))) := by
  obtain ⟨s', hk, _, hcnt, hz, hnz⟩ := kfree_valid cfg v s hv
  have hidx := ListInv_index_free cfg s l h v (by omega)
  refine ⟨s', hk, ?_, hcnt⟩
  by_cases hd : decClamp (s.num_phys_page (cfg.get_index_pte v)) = 0
  · left
    obtain ⟨hf, hm⟩ := hz hd
    obtain ⟨h1, h2, h3, h4⟩ := h
    have hnot : v ∉ l := fun hmem => hidx v hmem rfl
    refine ⟨hd, ?_, by rw [hf]; exact hv32, ?_, ?_⟩
    · rw [hf, hm]
      exact FreeChain_push s.mem v s.freelist l hv.ne_zero h2 hv.1 h1
        (fun a ha => (h4 a ha).1) hnot
    · rw [List.map_cons, List.nodup_cons]
      refine ⟨?_, h3⟩
      intro hmem
      obtain ⟨a, ha, he⟩ := List.mem_map.mp hmem
      exact hidx a ha he
    · intro b hb
      rcases List.mem_cons.mp hb with hb | hb
      · subst hb
        exact ⟨hv.1, by rw [hcnt, setCount_same, hd]⟩
      · exact ⟨(h4 b hb).1, by rw [hcnt, setCount_other _ _ _ _ (hidx b hb)]; exact (h4 b hb).2⟩
  · right
    obtain ⟨hf, hm⟩ := hnz hd
    refine ⟨hd, ListInv_of_fields cfg s s' l h hm hf ?_⟩
    intro a ha
    rw [hcnt, setCount_other _ _ _ _ (hidx a ha)]
    exact (h.2.2.2 a ha).2

theorem ListInv_increment (cfg : Config) (v : Nat) (s : Kmem) (l : List Nat)
    (h : ListInv cfg s l) (hown : 1 ≤ s.num_phys_page (cfg.get_index_pte v)) :
    ListInv cfg (increment_page_num cfg v s).2 l := by
  have hidx := ListInv_index_free cfg s l h v (by omega)
  apply ListInv_of_fields cfg s _ l h (increment_mem cfg v s) (increment_freelist cfg v s)
  intro a ha
  rw [increment_num_phys_page, setCount_other _ _ _ _ (hidx a ha)]
  exact (h.2.2.2 a ha).2

theorem ListInv_decrement (cfg : Config) (v : Nat) (s : Kmem) (l : List Nat)
    (h : ListInv cfg s l) : ListInv cfg (decrement_page_num cfg v s).2 l := by
  obtain ⟨d1, d2, _, d4⟩ := decrement_fields cfg v s
  apply ListInv_of_fields cfg s _ l h d1 d2
  intro a ha
  rw [d4]
  by_cases hi : cfg.get_index_pte a = cfg.get_index_pte v
  · rw [hi, setCount_same, ← hi, (h.2.2.2 a ha).2]
    decide
  · rw [setCount_other _ _ _ _ hi]
    exact (h.2.2.2 a ha).2

/-- Each public call that respects `OwnedCall` keeps the free list well-formed. -/
theorem ListInv_step (cfg : Config) (op : Op) (s s' : Kmem) (l : List Nat)
    (h : ListInv cfg s l) (hok : OwnedCall cfg op s) (hs : step cfg op s = some s') :
    ∃ l', ListInv cfg s' l' := by
  cases op with
  | kalloc =>
    cases hs
    exact ⟨_, ListInv_kalloc cfg s l h⟩
  | kfree v =>
    have hk := step_kfree_some cfg v s s' hs
    have hv := kfree_ret_valid cfg v s s' hk
    obtain ⟨s2, hk2, hcase, _⟩ := ListInv_kfree cfg v s l h hv hok.1 hok.2
    rw [hk] at hk2
    injection hk2 with _ he
    subst he
    rcases hcase with ⟨_, h'⟩ | ⟨_, h'⟩
    · exact ⟨_, h'⟩
    · exact ⟨_, h'⟩
  | increment_page_num v =>
    cases hs
    exact ⟨l, ListInv_increment cfg v s l h hok⟩
  | decrement_page_num v =>
    cases hs
    exact ⟨l, ListInv_decrement cfg v s l h⟩
  | get_phys_count v =>
    cases hs
    obtain ⟨g1, g2, _, g4⟩ := get_phys_count_fields cfg v s
    exact ⟨l, ListInv_of_fields cfg s _ l h g1 g2
      (fun a ha => by rw [g4]; exact (h.2.2.2 a ha).2)⟩
  | getNumFreePages fuel =>
    obtain ⟨n, hg⟩ := step_getNumFreePages_some cfg fuel s s' hs
    obtain ⟨g1, g2, _, g4⟩ := getNumFreePages_fields fuel s n s' hg
    exact ⟨l, ListInv_of_fields cfg s _ l h g1 g2
      (fun a ha => by rw [g4]; exact (h.2.2.2 a ha).2)⟩

theorem ListInv_run (cfg : Config) (ops : List Op) :
    ∀ (s s' : Kmem) (l : List Nat), ListInv cfg s l → AllCalls cfg (OwnedCall cfg) ops s →
      run cfg ops s = some s' → ∃ l', ListInv cfg s' l' := by
  induction ops with
  | nil =>
    intro s s' l h _ hr
    cases hr
    exact ⟨l, h⟩
  | cons op ops ih =>
    intro s s' l h hall hr
    obtain ⟨hok, hrest⟩ := hall
    unfold run at hr
    split at hr
    · rename_i s1 hs
      rw [hs] at hrest
      obtain ⟨l1, h1⟩ := ListInv_step cfg op s s1 l h hok hs
      exact ih s1 s' l1 h1 hrest hr
    · cases hr

theorem FreeChain_mem_of_OnFreeList (m : Nat → Nat) (a : Nat) (k : Nat) :
    ∀ (p : Nat) (l : List Nat), FreeChain m p l → a ≠ 0 → nthNode m p k = a → a ∈ l := by
  induction k with
  | zero =>
    intro p l hl ha hk
    have hp : p = a := hk
    cases l with
    | nil =>
      have h0 : p = 0 := hl
      omega
    | cons b t =>
      obtain ⟨h1, _, _⟩ := hl
      rw [← h1, hp]
      exact List.mem_cons_self _ _
  | succ k ih =>
    intro p l hl ha hk
    unfold nthNode at hk
    split at hk
    · omega
    · rename_i hp
      cases l with
      | nil => exact absurd hl hp
      | cons b t =>
        obtain ⟨h1, _, h3⟩ := hl
        subst h1
        exact List.mem_cons_of_mem _ (ih _ t h3 ha hk)

/-- After seeding an empty allocator the free list is well-formed, provided
`get_index_pte` tells the seeded frames apart. -/
theorem freerange_seeds_ListInv (cfg : Config) (s0 : Kmem) (vstart vend fuel : Nat)
    (hempty : s0.freelist = 0) (hcounts : ∀ i, s0.num_phys_page i = 0)
    (hw1 : vend + PGSIZE < 4294967296) (hw2 : PGROUNDUP vstart + PGSIZE < 4294967296)
    (hvalid : ∀ a ∈ seededFrames vstart vend, KfreeValid cfg a)
    (hinj : ∀ a ∈ seededFrames vstart vend, ∀ b ∈ seededFrames vstart vend,
      cfg.get_index_pte a = cfg.get_index_pte b → a = b)
    (hfuel : frameCount vstart vend ≤ fuel) :
    ∃ s1, freerange cfg fuel vstart vend s0 = Outcome.ret () s1 ∧
      ListInv cfg s1 (seededFrames vstart vend).reverse ∧ (∀ j, s1.num_phys_page j = 0) := by
  obtain ⟨s1, hr, hch, _, hhead, hc⟩ :=
    freerange_seeds_empty cfg s0 vstart vend fuel hempty hcounts hw1 hw2 hvalid hfuel
  refine ⟨s1, hr, ⟨hch, hhead, ?_, ?_⟩, hc⟩
  · apply List.Nodup.map_on
    · intro a ha b hb
      exact hinj a (List.mem_reverse.mp ha) b (List.mem_reverse.mp hb)
    · exact List.nodup_reverse.mpr (framesFrom_nodup _ _)
  · intro a ha
    exact ⟨(hvalid a (List.mem_reverse.mp ha)).1, hc _⟩

/-! ## Conservation -/

theorem countLoop_chain (l : List Nat) :
    ∀ (fuel r : Nat) (c : Int) (s : Kmem), FreeChain s.mem r l → l.length ≤ fuel →
      0 ≤ c → c + l.length < 2147483648 →
      ∃ s', countLoop fuel r c s = some (c + l.length, s') := by
  induction l with
  | nil =>
    intro fuel r c s h _ _ _
    have h0 : r = 0 := h
    subst h0
    exact ⟨s, by simp [countLoop_null]⟩
  | cons a t ih =>
    intro fuel r c s h hfuel hc hlen
    obtain ⟨h1, h2, h3⟩ := h
    subst h1
    obtain ⟨fuel, rfl⟩ : ∃ f, fuel = f + 1 := ⟨fuel - 1, by simp at hfuel; omega⟩
    simp only [List.length_cons, Nat.cast_add, Nat.cast_one] at hlen hfuel
    have hw : toInt32 (c + 1) = c + 1 := by unfold toInt32; omega
    obtain ⟨s', hs'⟩ := ih fuel (readPtr s.mem r) (c + 1) (emit Ev.access s) h3
      (by omega) (by omega) (by omega)
    refine ⟨s', ?_⟩
    simp only [countLoop, h2, if_false, hw, hs', List.length_cons, Nat.cast_add, Nat.cast_one]
    congr 2
    omega

theorem getNumFreePages_chain (fuel : Nat) (s : Kmem) (l : List Nat)
    (h : FreeChain s.mem s.freelist l) (hfuel : l.length ≤ fuel)
    (hlen : l.length < 2147483648) :
    ∃ s', getNumFreePages fuel s = some ((l.length : Int), s') := by
  obtain ⟨s', hs'⟩ := countLoop_chain l fuel s.freelist 0 (emit Ev.access (lockIfUsed s))
    (by simpa using h) hfuel (by omega) (by omega)
  refine ⟨unlockIfUsed s', ?_⟩
  unfold getNumFreePages
  simp only [emit_freelist, lockIfUsed_freelist, hs', zero_add]

theorem SeedInv_count (cfg : Config) (F : List Nat) (s : Kmem) (l : List Nat)
    (h : SeedInv cfg F s l) (hF : F.Nodup) : l.length + ownedCount cfg F s = F.length := by
  obtain ⟨hinv, hmem, h01⟩ := h
  have hl : l.Nodup := List.Nodup.of_map _ hinv.2.2.1
  have hperm : List.Perm l
      (F.filter (fun a => decide (s.num_phys_page (cfg.get_index_pte a) = 0))) := by
    rw [List.perm_ext_iff_of_nodup hl (hF.filter _)]
    intro a
    rw [hmem a, List.mem_filter]
    simp
  have hsplit := List.length_eq_countP_add_countP
    (fun a => decide (s.num_phys_page (cfg.get_index_pte a) = 0)) F
  rw [List.countP_eq_length_filter, List.countP_eq_length_filter] at hsplit
  have hfil : F.filter (fun a => decide (¬ (decide (s.num_phys_page (cfg.get_index_pte a) = 0))
        = true))
      = F.filter (fun a => decide (1 ≤ s.num_phys_page (cfg.get_index_pte a))) := by
    apply List.filter_congr
    intro a ha
    rcases h01 a ha with h0 | h1
    · simp [h0]
    · simp [h1]
  rw [hfil] at hsplit
  unfold ownedCount
  rw [hperm.length_eq]
  omega

theorem SeedInv_step (cfg : Config) (F : List Nat) (op : Op) (s : Kmem) (l : List Nat)
    (h : SeedInv cfg F s l)
    (hF : ∀ a ∈ F, KfreeValid cfg a ∧ a < 4294967296)
    (hinj : ∀ a ∈ F, ∀ b ∈ F, cfg.get_index_pte a = cfg.get_index_pte b → a = b)
    (hok : AllocOrFreeOwned cfg F op s) :
    ∃ s' l', step cfg op s = some s' ∧ SeedInv cfg F s' l' := by
  obtain ⟨hinv, hmem, h01⟩ := h
  cases op with
  | kalloc =>
    refine ⟨(kalloc cfg s).2, l.tail, rfl, ListInv_kalloc cfg s l hinv, ?_, ?_⟩
    · cases l with
      | nil =>
        have h0 : s.freelist = 0 := hinv.1
        intro a
        rw [kalloc_empty_num_phys_page cfg s h0]
        exact hmem a
      | cons b t =>
        have hne : s.freelist ≠ 0 := by rw [hinv.1.1]; exact hinv.1.2.1
        have hb : s.freelist = b := hinv.1.1
        have hnd := hinv.2.2.1
        rw [List.map_cons, List.nodup_cons] at hnd
        intro a
        rw [kalloc_num_phys_page cfg s hne, hb, List.tail_cons]
        constructor
        · intro ha
          have hi : cfg.get_index_pte a ≠ cfg.get_index_pte b := by
            intro he
            exact hnd.1 (he ▸ List.mem_map_of_mem _ ha)
          rw [setCount_other _ _ _ _ hi]
          exact (hmem a).mp (List.mem_cons_of_mem _ ha)
        · rintro ⟨haF, hz⟩
          by_cases hi : cfg.get_index_pte a = cfg.get_index_pte b
          · rw [hi, setCount_same] at hz
            omega
          · rw [setCount_other _ _ _ _ hi] at hz
            rcases List.mem_cons.mp ((hmem a).mpr ⟨haF, hz⟩) with he | he
            · exact absurd (by rw [he]) hi
            · exact he
    · intro a ha
      cases l with
      | nil =>
        have h0 : s.freelist = 0 := hinv.1
        rw [kalloc_empty_num_phys_page cfg s h0]
        exact h01 a ha
      | cons b t =>
        have hne : s.freelist ≠ 0 := by rw [hinv.1.1]; exact hinv.1.2.1
        rw [kalloc_num_phys_page cfg s hne]
        by_cases hi : cfg.get_index_pte a = cfg.get_index_pte s.freelist
        · rw [hi, setCount_same]; right; rfl
        · rw [setCount_other _ _ _ _ hi]; exact h01 a ha
  | kfree v =>
    obtain ⟨hvF, hown⟩ := hok
    have hone : s.num_phys_page (cfg.get_index_pte v) = 1 := by
      rcases h01 v hvF with h0 | h1
      · omega
      · exact h1
    obtain ⟨s', hk, hcase, hcnt⟩ := ListInv_kfree cfg v s l hinv (hF v hvF).1 (hF v hvF).2 hown
    rw [hone] at hcase hcnt
    have hd : decClamp 1 = 0 := by decide
    rw [hd] at hcnt
    rcases hcase with ⟨_, hinv'⟩ | ⟨hne, _⟩
    · refine ⟨s', v :: l, by simp only [step, hk], hinv', ?_, ?_⟩
      · intro a
        rw [hcnt, List.mem_cons]
        constructor
        · rintro (ha | ha)
          · subst ha
            exact ⟨hvF, setCount_same _ _ _⟩
          · refine ⟨((hmem a).mp ha).1, ?_⟩
            by_cases hi : cfg.get_index_pte a = cfg.get_index_pte v
            · rw [hi, setCount_same]
            · rw [setCount_other _ _ _ _ hi]; exact ((hmem a).mp ha).2
        · rintro ⟨haF, hz⟩
          by_cases hi : cfg.get_index_pte a = cfg.get_index_pte v
          · left; exact hinj a haF v hvF hi
          · rw [setCount_other _ _ _ _ hi] at hz
            right; exact (hmem a).mpr ⟨haF, hz⟩
      · intro a ha
        rw [hcnt]
        by_cases hi : cfg.get_index_pte a = cfg.get_index_pte v
        · rw [hi, setCount_same]; left; rfl
        · rw [setCount_other _ _ _ _ hi]; exact h01 a ha
    · exact absurd hd hne
  | increment_page_num v => exact absurd hok (by simp [AllocOrFreeOwned])
  | decrement_page_num v => exact absurd hok (by simp [AllocOrFreeOwned])
  | get_phys_count v => exact absurd hok (by simp [AllocOrFreeOwned])
  | getNumFreePages fuel => exact absurd hok (by simp [AllocOrFreeOwned])

theorem SeedInv_run (cfg : Config) (F : List Nat)
    (hF : ∀ a ∈ F, KfreeValid cfg a ∧ a < 4294967296)
    (hinj : ∀ a ∈ F, ∀ b ∈ F, cfg.get_index_pte a = cfg.get_index_pte b → a = b)
    (ops : List Op) :
    ∀ (s : Kmem) (l : List Nat), SeedInv cfg F s l →
      AllCalls cfg (AllocOrFreeOwned cfg F) ops s →
      ∃ s' l', run cfg ops s = some s' ∧ SeedInv cfg F s' l' := by
  induction ops with
  | nil => intro s l h _; exact ⟨s, l, rfl, h⟩
  | cons op ops ih =>
    intro s l h hall
    obtain ⟨hok, hrest⟩ := hall
    obtain ⟨s1, l1, hs, h1⟩ := SeedInv_step cfg F op s l h hF hinj hok
    rw [hs] at hrest
    obtain ⟨s', l', hr, h'⟩ := ih s1 l1 h1 hrest
    exact ⟨s', l', by simp only [run, hs, hr], h'⟩

/-! ## Claims on single calls -/

/-- C1: when the free list is non-empty, `kalloc` returns its head; the free list
afterwards starts at the old head's link, in unchanged memory, so that it is the old list
without its head; the reference count at the index of the returned frame is exactly 1 (and
`get_phys_count` on the returned address yields 1); every other count is unchanged. -/
theorem C1_kalloc_pops_head (cfg : Config) (s : Kmem) (h : s.freelist ≠ 0) :
    (kalloc cfg s).1 = s.freelist ∧
    (kalloc cfg s).2.freelist = readPtr s.mem s.freelist ∧
    (kalloc cfg s).2.mem = s.mem ∧
    (∀ l, FreeChain s.mem s.freelist l →
      l = s.freelist :: l.tail ∧
      FreeChain (kalloc cfg s).2.mem (kalloc cfg s).2.freelist l.tail) ∧
    (kalloc cfg s).2.num_phys_page (cfg.get_index_pte (kalloc cfg s).1) = 1 ∧
    (get_phys_count cfg (kalloc cfg s).1 (kalloc cfg s).2).1 = 1 ∧
    (∀ i, i ≠ cfg.get_index_pte (kalloc cfg s).1 →
      (kalloc cfg s).2.num_phys_page i = s.num_phys_page i) := by
  have hc : (kalloc cfg s).2.num_phys_page (cfg.get_index_pte (kalloc cfg s).1) = 1 := by
    rw [kalloc_num_phys_page cfg s h, kalloc_fst, setCount_same]
  refine ⟨kalloc_fst cfg s, kalloc_freelist cfg s h, kalloc_mem cfg s, ?_, hc, ?_, ?_⟩
  · intro l hl
    rw [kalloc_mem, kalloc_freelist cfg s h]
    cases l with
    | nil => exact absurd hl h
    | cons a t =>
      obtain ⟨h1, _, h3⟩ := hl
      subst h1
      exact ⟨rfl, h3⟩
  · simp only [get_phys_count, lockIfUsed_num_phys_page, hc]
    rfl
  · intro i hi
    rw [kalloc_fst] at hi
    rw [kalloc_num_phys_page cfg s h, setCount_other _ _ _ _ hi]

/-- C1, instance: popping the only free frame `0x80400000`. -/
theorem C1_kalloc_pops_head_witness :
    oneFree.freelist ≠ 0 ∧ (kalloc xv6 oneFree).1 = 0x80400000 ∧
      (kalloc xv6 oneFree).2.freelist = 0 ∧
      (get_phys_count xv6 (kalloc xv6 oneFree).1 (kalloc xv6 oneFree).2).1 = 1 :=
  have h := C1_kalloc_pops_head xv6 oneFree (by decide)
  ⟨by decide, h.1, h.2.1, h.2.2.2.2.2.1⟩

/-- C3: for an address that passes the checks of `kfree` and whose frame has a reference
count `c ≥ 2` (a C `int`), `kfree` returns, the count becomes `c - 1`, and the free list,
the whole memory, the gate flag and every other count are unchanged. -/
theorem C3_kfree_shared_only_decrements (cfg : Config) (v : Nat) (s : Kmem)
    (hv : KfreeValid cfg v)
    (h2 : 2 ≤ s.num_phys_page (cfg.get_index_pte v))
    (hint : s.num_phys_page (cfg.get_index_pte v) < 2147483648) :
    ∃ s', kfree cfg v s = Outcome.ret () s' ∧
      s'.num_phys_page (cfg.get_index_pte v) = s.num_phys_page (cfg.get_index_pte v) - 1 ∧
      s'.freelist = s.freelist ∧ s'.mem = s.mem ∧ s'.use_lock = s.use_lock ∧
      (∀ i, i ≠ cfg.get_index_pte v → s'.num_phys_page i = s.num_phys_page i) := by
  obtain ⟨s', hk, hl, hc, _, hpos⟩ := kfree_valid cfg v s hv
  have hd := decClamp_ge_two _ h2 hint
  have hne : decClamp (s.num_phys_page (cfg.get_index_pte v)) ≠ 0 := by omega
  refine ⟨s', hk, ?_, (hpos hne).1, (hpos hne).2, hl, ?_⟩
  · rw [hc, setCount_same, hd]
  · intro i hi
    rw [hc, setCount_other _ _ _ _ hi]

/-- C3, instance: freeing one of three shares of frame `0x80400000`. -/
theorem C3_kfree_shared_only_decrements_witness :
    ∃ s', kfree xv6 0x80400000 (sharedBy 3) = Outcome.ret () s' ∧
      s'.num_phys_page 0x400 = 2 ∧ s'.freelist = 0 ∧ s'.mem 0x80400000 = 7 := by
  obtain ⟨s', hk, hc, hf, hm, _, _⟩ :=
    C3_kfree_shared_only_decrements xv6 0x80400000 (sharedBy 3) (by decide) (by decide)
      (by decide)
  have hi : xv6.get_index_pte 0x80400000 = 0x400 := by decide
  rw [hi] at hc
  exact ⟨s', hk, by rw [hc]; decide, hf, by rw [hm]; rfl⟩

/-- C4: an address that is misaligned, or below the kernel end, or whose physical address
is at or above `PHYSTOP`, makes `kfree` panic with the state exactly as it was on entry:
free list, reference counts and memory are untouched. -/
theorem C4_kfree_invalid_is_fatal (cfg : Config) (v : Nat) (s : Kmem)
    (h : v % 4096 ≠ 0 ∨ v < cfg.kend ∨ cfg.PHYSTOP ≤ cfg.V2P v) :
    kfree cfg v s = Outcome.fatal "kfree" s :=
  kfree_invalid cfg v s h

/-- C4, instance: a misaligned address, an address below `end`, and an address whose
physical address is `PHYSTOP`. -/
theorem C4_kfree_invalid_is_fatal_witness :
    kfree xv6 0x80400001 oneFree = Outcome.fatal "kfree" oneFree ∧
      kfree xv6 0x80000000 oneFree = Outcome.fatal "kfree" oneFree ∧
      kfree xv6 0x8E000000 oneFree = Outcome.fatal "kfree" oneFree :=
  ⟨C4_kfree_invalid_is_fatal xv6 0x80400001 oneFree (Or.inl (by decide)),
   C4_kfree_invalid_is_fatal xv6 0x80000000 oneFree (Or.inr (Or.inl (by decide))),
   C4_kfree_invalid_is_fatal xv6 0x8E000000 oneFree (Or.inr (Or.inr (by decide)))⟩

/-- C5: on an empty free list `kalloc` returns the null address and leaves the free list,
every reference count, the gate flag and the memory as they were; hence any number `n` of
further calls all return null, leave these unchanged, and `getNumFreePages` returns 0
before and after them. -/
theorem C5_kalloc_exhausted (cfg : Config) (s : Kmem) (h : s.freelist = 0) :
    (kalloc cfg s).1 = 0 ∧ (kalloc cfg s).2.freelist = 0 ∧
    (kalloc cfg s).2.num_phys_page = s.num_phys_page ∧
    (kalloc cfg s).2.use_lock = s.use_lock ∧ (kalloc cfg s).2.mem = s.mem ∧
    ∀ n, (kallocN cfg n s).1 = List.replicate n 0 ∧ (kallocN cfg n s).2.freelist = 0 ∧
      (kallocN cfg n s).2.num_phys_page = s.num_phys_page ∧
      (kallocN cfg n s).2.use_lock = s.use_lock ∧ (kallocN cfg n s).2.mem = s.mem ∧
      ∀ fuel, ∃ s', getNumFreePages fuel (kallocN cfg n s).2 = some (0, s') := by
  refine ⟨by rw [kalloc_fst, h], kalloc_empty_freelist cfg s h,
    kalloc_empty_num_phys_page cfg s h, kalloc_use_lock cfg s, kalloc_mem cfg s, ?_⟩
  intro n
  obtain ⟨h1, h2, h3, h4, h5⟩ := kallocN_exhausted cfg n s h
  exact ⟨h1, h2, h3, h4, h5, fun fuel => getNumFreePages_empty fuel _ h2⟩

/-- C5, instance: three calls on the empty allocator. -/
theorem C5_kalloc_exhausted_witness :
    emptyKmem.freelist = 0 ∧ (kallocN xv6 3 emptyKmem).1 = [0, 0, 0] ∧
      ∃ s', getNumFreePages 0 (kallocN xv6 3 emptyKmem).2 = some (0, s') :=
  have h := C5_kalloc_exhausted xv6 emptyKmem rfl
  ⟨rfl, (h.2.2.2.2.2 3).1, (h.2.2.2.2.2 3).2.2.2.2.2 0⟩

/-- C2, as stated, fails on a double free.  In `freedOnce` (the state after one
`kfree(0x80400000)` on the empty allocator) the address is valid, its count is 0 and the
free list is the one-node list `[0x80400000]`.  A second `kfree(0x80400000)` returns with
the frame as head whose link points to itself: the list is not "the frame followed by the
previous list", and in fact no finite list at all. -/
theorem C2_counterexample_double_free :
    KfreeValid xv6 0x80400000 ∧
    freedOnce.num_phys_page (xv6.get_index_pte 0x80400000) = 0 ∧
    FreeChain freedOnce.mem freedOnce.freelist [0x80400000] ∧
    ∃ s', kfree xv6 0x80400000 freedOnce = Outcome.ret () s' ∧
      s'.freelist = 0x80400000 ∧ readPtr s'.mem 0x80400000 = 0x80400000 ∧
      ¬ FreeChain s'.mem s'.freelist [0x80400000, 0x80400000] ∧
      ∀ l, ¬ FreeChain s'.mem s'.freelist l := by
  have hv : KfreeValid xv6 0x80400000 := by decide
  obtain ⟨s', hk, _, _, hz, _⟩ := kfree_valid xv6 0x80400000 freedOnce hv
  have hd : decClamp (freedOnce.num_phys_page (xv6.get_index_pte 0x80400000)) = 0 := by
    decide
  obtain ⟨hf, hm⟩ := hz hd
  have hloop : readPtr s'.mem 0x80400000 = 0x80400000 := by
    rw [hm, readPtr_writePtr]
    rfl
  have hchain : FreeChain freedOnce.mem freedOnce.freelist [0x80400000] := by
    refine ⟨rfl, by decide, ?_⟩
    show readPtr freedOnce.mem 0x80400000 = 0
    show readPtr (writePtr _ 0x80400000 0) 0x80400000 = 0
    rw [readPtr_writePtr]
  refine ⟨hv, rfl, hchain, s', hk, hf, hloop, ?_, ?_⟩
  · rw [hf]
    exact FreeChain_self_loop _ _ (by decide) hloop _
  · intro l
    rw [hf]
    exact FreeChain_self_loop _ _ (by decide) hloop l

/-- C2, amended: for an address that passes the checks of `kfree`, whose frame has a
reference count `c ≤ 1` (a C `int` above `INT_MIN`, so that the decrement is defined) and
is not already on the free list `l` of page-aligned frames, `kfree` returns with the count
equal to 0, the frame as new head, linked to the old head, the free list being the frame
followed by the whole previous list `l`; every other count is unchanged. -/
theorem C2_kfree_last_owner_pushes (cfg : Config) (v : Nat) (s : Kmem) (l : List Nat)
    (hv : KfreeValid cfg v)
    (hc : s.num_phys_page (cfg.get_index_pte v) ≤ 1)
    (hmin : -2147483648 < s.num_phys_page (cfg.get_index_pte v))
    (hhead : s.freelist < 4294967296)
    (hl : FreeChain s.mem s.freelist l)
    (hal : ∀ a ∈ l, a % PGSIZE = 0)
    (hnot : v ∉ l) :
    ∃ s', kfree cfg v s = Outcome.ret () s' ∧
      s'.num_phys_page (cfg.get_index_pte v) = 0 ∧
      s'.freelist = v ∧ readPtr s'.mem v = s.freelist ∧
      FreeChain s'.mem s'.freelist (v :: l) ∧
      (∀ i, i ≠ cfg.get_index_pte v → s'.num_phys_page i = s.num_phys_page i) := by
  obtain ⟨s', hk, _, hcnt, hz, _⟩ := kfree_valid cfg v s hv
  have hd := decClamp_le_one _ hmin hc
  obtain ⟨hf, hm⟩ := hz hd
  refine ⟨s', hk, ?_, hf, ?_, ?_, ?_⟩
  · rw [hcnt, setCount_same, hd]
  · rw [hm, readPtr_writePtr, Nat.mod_eq_of_lt hhead]
  · rw [hf, hm]
    exact FreeChain_push s.mem v s.freelist l hv.ne_zero hhead hv.1 hl hal hnot
  · intro i hi
    rw [hcnt, setCount_other _ _ _ _ hi]

/-- C2 amended, instance: the last owner frees `0x80400000` while `0x80401000` is the
only free frame. -/
theorem C2_kfree_last_owner_pushes_witness :
    ∃ s', kfree xv6 0x80400000
        { sharedBy 1 with freelist := 0x80401000, mem := fun _ => 0 } = Outcome.ret () s' ∧
      s'.freelist = 0x80400000 ∧
      FreeChain s'.mem s'.freelist [0x80400000, 0x80401000] := by
  obtain ⟨s', hk, _, hf, _, hch, _⟩ :=
    C2_kfree_last_owner_pushes xv6 0x80400000
      { sharedBy 1 with freelist := 0x80401000, mem := fun _ => 0 } [0x80401000]
      (by decide) (by decide) (by decide) (by decide) (by decide) (by decide) (by decide)
  exact ⟨s', hk, hf, hch⟩

/-- C8: if a valid frame address `v` has reference count 1 and is not on the free list,
then `increment_page_num(v)` returns 2; a following `kfree(v)` returns, leaves the count at
1 and `v` off the free list; a second `kfree(v)` returns, leaves the count at 0 and `v` on
the free list. -/
theorem C8_share_then_release (cfg : Config) (v : Nat) (s : Kmem)
    (hv : KfreeValid cfg v)
    (h1 : s.num_phys_page (cfg.get_index_pte v) = 1)
    (hoff : ¬ OnFreeList s.mem s.freelist v) :
    (increment_page_num cfg v s).1 = 2 ∧
    ∃ s2 s3, kfree cfg v (increment_page_num cfg v s).2 = Outcome.ret () s2 ∧
      s2.num_phys_page (cfg.get_index_pte v) = 1 ∧
      ¬ OnFreeList s2.mem s2.freelist v ∧
      kfree cfg v s2 = Outcome.ret () s3 ∧
      s3.num_phys_page (cfg.get_index_pte v) = 0 ∧
      OnFreeList s3.mem s3.freelist v := by
  have hinc : (increment_page_num cfg v s).2.num_phys_page (cfg.get_index_pte v) = 2 := by
    rw [increment_num_phys_page, setCount_same, h1]
    rfl
  refine ⟨by rw [increment_fst, h1]; rfl, ?_⟩
  obtain ⟨s2, hk2, _, hc2, _, hp2⟩ := kfree_valid cfg v (increment_page_num cfg v s).2 hv
  rw [hinc] at hc2 hp2
  have hd2 : decClamp 2 = 1 := by decide
  rw [hd2] at hc2 hp2
  obtain ⟨hf2, hm2⟩ := hp2 (by decide)
  rw [increment_freelist] at hf2
  rw [increment_mem] at hm2
  have hcount2 : s2.num_phys_page (cfg.get_index_pte v) = 1 := by
    rw [hc2, setCount_same]
  obtain ⟨s3, hk3, _, hc3, hz3, _⟩ := kfree_valid cfg v s2 hv
  rw [hcount2] at hc3 hz3
  have hd3 : decClamp 1 = 0 := by decide
  rw [hd3] at hc3 hz3
  obtain ⟨hf3, _⟩ := hz3 rfl
  refine ⟨s2, s3, hk2, hcount2, ?_, hk3, ?_, ?_⟩
  · rw [hf2, hm2]; exact hoff
  · rw [hc3, setCount_same]
  · rw [hf3]; exact OnFreeList_head _ v hv.ne_zero

/-- C8, instance: the frame `0x80400000`, owned once, with an empty free list. -/
theorem C8_share_then_release_witness :
    (increment_page_num xv6 0x80400000 (sharedBy 1)).1 = 2 ∧
    ∃ s2 s3, kfree xv6 0x80400000 (increment_page_num xv6 0x80400000 (sharedBy 1)).2
        = Outcome.ret () s2 ∧
      s2.num_phys_page (xv6.get_index_pte 0x80400000) = 1 ∧
      ¬ OnFreeList s2.mem s2.freelist 0x80400000 ∧
      kfree xv6 0x80400000 s2 = Outcome.ret () s3 ∧
      s3.num_phys_page (xv6.get_index_pte 0x80400000) = 0 ∧
      OnFreeList s3.mem s3.freelist 0x80400000 :=
  C8_share_then_release xv6 0x80400000 (sharedBy 1) (by decide) (by decide)
    (not_OnFreeList_null _ _)

/-- C9, as stated, fails: the last owner frees `0x80400000` (count 1, empty free list,
every byte of memory holding 7).  The call returns with the count at 0 and the frame on the
free list, but the first byte of the frame holds 0, the low byte of the link to the old
head, not the poison value 1. -/
theorem C9_counterexample_link_overwrites_poison :
    ∃ s', kfree xv6 0x80400000 (sharedBy 1) = Outcome.ret () s' ∧
      s'.num_phys_page (xv6.get_index_pte 0x80400000) = 0 ∧
      s'.freelist = 0x80400000 ∧
      s'.mem 0x80400000 = 0 ∧
      ¬ (∀ x, 0x80400000 ≤ x → x < 0x80400000 + 4096 → s'.mem x = 1) := by
  obtain ⟨s', hk, _, hcnt, hz, _⟩ := kfree_valid xv6 0x80400000 (sharedBy 1) (by decide)
  have hd : decClamp ((sharedBy 1).num_phys_page (xv6.get_index_pte 0x80400000)) = 0 := by
    decide
  obtain ⟨hf, hm⟩ := hz hd
  have h0 : s'.mem 0x80400000 = 0 := by
    rw [hm]
    simp [writePtr]
    rfl
  refine ⟨s', hk, ?_, hf, h0, ?_⟩
  · rw [hcnt, setCount_same, hd]
  · intro hall
    have h1 := hall 0x80400000 (by decide) (by decide)
    rw [h0] at h1
    exact absurd h1 (by decide)

/-- C9, amended: whenever a call `kfree(v)` returns with the frame's reference count at 0,
the frame is the head of the free list, its first four bytes hold the link to the previous
head, and every one of its remaining 4092 bytes holds the poison value 1. -/
theorem C9_kfree_poisons_behind_link (cfg : Config) (v : Nat) (s s' : Kmem)
    (hk : kfree cfg v s = Outcome.ret () s')
    (h0 : s'.num_phys_page (cfg.get_index_pte v) = 0) :
    s'.freelist = v ∧ OnFreeList s'.mem s'.freelist v ∧
    readPtr s'.mem v = s.freelist % 4294967296 ∧
    ∀ x, v + 4 ≤ x → x < v + 4096 → s'.mem x = 1 := by
  have hv := kfree_ret_valid cfg v s s' hk
  obtain ⟨s'', hk', _, hcnt, hz, _⟩ := kfree_valid cfg v s hv
  rw [hk] at hk'
  injection hk' with _ hs
  subst hs
  rw [hcnt, setCount_same] at h0
  obtain ⟨hf, hm⟩ := hz h0
  refine ⟨hf, ?_, ?_, ?_⟩
  · rw [hf]; exact OnFreeList_head _ v hv.ne_zero
  · rw [hm, readPtr_writePtr]
  · intro x hx1 hx2
    rw [hm]
    exact push_mem_poison s.mem v s.freelist x hx1 hx2

/-- C9 amended, instance: the last owner frees `0x80400000`. -/
theorem C9_kfree_poisons_behind_link_witness :
    ∃ s', kfree xv6 0x80400000 (sharedBy 1) = Outcome.ret () s' ∧
      s'.freelist = 0x80400000 ∧ s'.mem 0x80400004 = 1 ∧ s'.mem 0x80400FFF = 1 := by
  obtain ⟨s', hk, _, hcnt, hz, _⟩ := kfree_valid xv6 0x80400000 (sharedBy 1) (by decide)
  have hd : decClamp ((sharedBy 1).num_phys_page (xv6.get_index_pte 0x80400000)) = 0 := by
    decide
  have h := C9_kfree_poisons_behind_link xv6 0x80400000 (sharedBy 1) s' hk
    (by rw [hcnt, setCount_same, hd])
  exact ⟨s', hk, h.1, h.2.2.2 0x80400004 (by decide) (by decide),
    h.2.2.2 0x80400FFF (by decide) (by decide)⟩

/-! ## Claims on seeded allocators -/

/-- C10: seed an empty allocator by `freerange` over a range without address wrap-around
whose `k` complete frames are all valid for `kfree`.  Then `freerange` returns, `k`
consecutive `kalloc` calls return exactly the `k` seeded addresses (last seeded first),
each once, each with reference count 1 afterwards; then `getNumFreePages` returns 0 and
one more `kalloc` returns the null address. -/
theorem C10_seed_then_drain (cfg : Config) (s0 : Kmem) (vstart vend fuel : Nat)
    (hempty : s0.freelist = 0) (hcounts : ∀ i, s0.num_phys_page i = 0)
    (hw1 : vend + PGSIZE < 4294967296) (hw2 : PGROUNDUP vstart + PGSIZE < 4294967296)
    (hvalid : ∀ a ∈ seededFrames vstart vend, KfreeValid cfg a)
    (hfuel : frameCount vstart vend ≤ fuel) :
    ∃ s1, freerange cfg fuel vstart vend s0 = Outcome.ret () s1 ∧
      (kallocN cfg (frameCount vstart vend) s1).1 = (seededFrames vstart vend).reverse ∧
      (seededFrames vstart vend).Nodup ∧
      (seededFrames vstart vend).length = frameCount vstart vend ∧
      (∀ a ∈ seededFrames vstart vend,
        (kallocN cfg (frameCount vstart vend) s1).2.num_phys_page (cfg.get_index_pte a) = 1 ∧
        (get_phys_count cfg a (kallocN cfg (frameCount vstart vend) s1).2).1 = 1) ∧
      (∀ fuel', ∃ s', getNumFreePages fuel' (kallocN cfg (frameCount vstart vend) s1).2
        = some (0, s')) ∧
      (kalloc cfg (kallocN cfg (frameCount vstart vend) s1).2).1 = 0 := by
  obtain ⟨s1, hr, hch, _, _, _⟩ :=
    freerange_seeds_empty cfg s0 vstart vend fuel hempty hcounts hw1 hw2 hvalid hfuel
  have hlen : (seededFrames vstart vend).reverse.length = frameCount vstart vend := by
    rw [List.length_reverse]
    exact framesFrom_length _ _
  obtain ⟨d1, d2, _, _, d5⟩ := kallocN_chain cfg _ s1 hch
  rw [hlen] at d1 d2 d5
  have hone : ∀ a ∈ seededFrames vstart vend,
      (kallocN cfg (frameCount vstart vend) s1).2.num_phys_page (cfg.get_index_pte a) = 1 := by
    intro a ha
    rw [d5]
    have : cfg.get_index_pte a ∈ List.map cfg.get_index_pte (seededFrames vstart vend).reverse :=
      List.mem_map_of_mem _ (List.mem_reverse.mpr ha)
    rw [if_pos this]
  refine ⟨s1, hr, d1, framesFrom_nodup _ _, framesFrom_length _ _, ?_,
    fun fuel' => getNumFreePages_empty fuel' _ d2, by rw [kalloc_fst, d2]⟩
  intro a ha
  refine ⟨hone a ha, ?_⟩
  simp only [get_phys_count, lockIfUsed_num_phys_page, hone a ha]
  rfl

/-- C10, instance: the three frames `A, A + 4096, A + 8192` with `A = 0x80400000`. -/
theorem C10_seed_then_drain_witness :
    ∃ s1, freerange xv6 3 0x80400000 0x80403000 emptyKmem = Outcome.ret () s1 ∧
      (kallocN xv6 3 s1).1 = [0x80402000, 0x80401000, 0x80400000] ∧
      (∀ fuel', ∃ s', getNumFreePages fuel' (kallocN xv6 3 s1).2 = some (0, s')) ∧
      (kalloc xv6 (kallocN xv6 3 s1).2).1 = 0 := by
  obtain ⟨s1, hr, hl, _, _, _, hn, hz⟩ :=
    C10_seed_then_drain xv6 emptyKmem 0x80400000 0x80403000 3 rfl (fun _ => rfl)
      (by decide) (by decide) (by decide) (by decide)
  have hk : frameCount 0x80400000 0x80403000 = 3 := by decide
  rw [hk] at hl hn hz
  exact ⟨s1, hr, hl, hn, hz⟩

/-- C7, as stated, fails in two ways.  Seed the single frame `A = 0x80400000` into the
empty allocator.  (1) `increment_page_num(A)` returns with `A` still the head of the free
list and its count at 1.  (2) `kfree(A)` (a second free of the same frame) followed by
`kalloc()` returns with the count of `A` at 1 while `A` is again the head of the free
list. -/
theorem C7_counterexample_owned_frame_on_free_list :
    ∃ s1, freerange xv6 1 0x80400000 0x80401000 emptyKmem = Outcome.ret () s1 ∧
      (∃ s2, run xv6 [Op.increment_page_num 0x80400000] s1 = some s2 ∧
        1 ≤ s2.num_phys_page (xv6.get_index_pte 0x80400000) ∧
        OnFreeList s2.mem s2.freelist 0x80400000) ∧
      (∃ s3, run xv6 [Op.kfree 0x80400000, Op.kalloc] s1 = some s3 ∧
        1 ≤ s3.num_phys_page (xv6.get_index_pte 0x80400000) ∧
        OnFreeList s3.mem s3.freelist 0x80400000) := by
  obtain ⟨s1, hr, hch, _, _, hc⟩ :=
    freerange_seeds_empty xv6 emptyKmem 0x80400000 0x80401000 1 rfl (fun _ => rfl)
      (by decide) (by decide) (by decide) (by decide)
  have hl : (seededFrames 0x80400000 0x80401000).reverse = [0x80400000] := by decide
  rw [hl] at hch
  have hhead : s1.freelist = 0x80400000 := hch.1
  refine ⟨s1, hr, ⟨(increment_page_num xv6 0x80400000 s1).2, rfl, ?_, ?_⟩, ?_⟩
  · rw [increment_num_phys_page, setCount_same, hc]
    decide
  · rw [increment_freelist, hhead]
    exact OnFreeList_head _ _ (by decide)
  · obtain ⟨s2, hk, _, _, hz, _⟩ := kfree_valid xv6 0x80400000 s1 (by decide)
    rw [hc] at hz
    obtain ⟨hf, hm⟩ := hz (by decide)
    have hne : s2.freelist ≠ 0 := by rw [hf]; decide
    refine ⟨(kalloc xv6 s2).2, by simp only [run, step, hk], ?_, ?_⟩
    · rw [kalloc_num_phys_page xv6 s2 hne, hf, setCount_same]
    · rw [kalloc_freelist xv6 s2 hne, kalloc_mem, hf, hm, readPtr_writePtr, hhead]
      exact OnFreeList_head _ _ (by decide)

/-- C7, amended: seed an empty allocator by `freerange` (range without wrap-around, all
frames valid, `get_index_pte` distinct on them).  In every state reached by a finite
sequence of the public operations in which `kfree` and `increment_page_num` are only
applied to addresses whose frame has reference count at least 1 at the time of the call,
the free list is a finite list of frames that all have reference count 0: no frame whose
reference count is at least 1 appears on the free list. -/
theorem C7_owned_calls_keep_free_list_unowned (cfg : Config) (s0 : Kmem)
    (vstart vend fuel : Nat)
    (hempty : s0.freelist = 0) (hcounts : ∀ i, s0.num_phys_page i = 0)
    (hw1 : vend + PGSIZE < 4294967296) (hw2 : PGROUNDUP vstart + PGSIZE < 4294967296)
    (hvalid : ∀ a ∈ seededFrames vstart vend, KfreeValid cfg a)
    (hinj : ∀ a ∈ seededFrames vstart vend, ∀ b ∈ seededFrames vstart vend,
      cfg.get_index_pte a = cfg.get_index_pte b → a = b)
    (hfuel : frameCount vstart vend ≤ fuel) :
    ∃ s1, freerange cfg fuel vstart vend s0 = Outcome.ret () s1 ∧
      ∀ ops s, AllCalls cfg (OwnedCall cfg) ops s1 → run cfg ops s1 = some s →
        (∃ l, FreeChain s.mem s.freelist l ∧
          ∀ a ∈ l, s.num_phys_page (cfg.get_index_pte a) = 0) ∧
        ∀ a, 1 ≤ s.num_phys_page (cfg.get_index_pte a) → ¬ OnFreeList s.mem s.freelist a := by
  obtain ⟨s1, hr, hinv, _⟩ :=
    freerange_seeds_ListInv cfg s0 vstart vend fuel hempty hcounts hw1 hw2 hvalid hinj hfuel
  refine ⟨s1, hr, ?_⟩
  intro ops s hall hrun
  obtain ⟨l, hl⟩ := ListInv_run cfg ops s1 s _ hinv hall hrun
  refine ⟨⟨l, hl.1, fun a ha => (hl.2.2.2 a ha).2⟩, ?_⟩
  rintro a hown ⟨ha0, k, hk⟩
  have hmem := FreeChain_mem_of_OnFreeList s.mem a k _ l hl.1 ha0 hk
  have := (hl.2.2.2 a hmem).2
  omega

/-- C7 amended, instance: seed `A, A + 4096`, allocate the frame `A + 4096`, share it,
then release one share. -/
theorem C7_owned_calls_keep_free_list_unowned_witness :
    ∃ s1, freerange xv6 2 0x80400000 0x80402000 emptyKmem = Outcome.ret () s1 ∧
      ∀ s, run xv6 [Op.kalloc, Op.increment_page_num 0x80401000, Op.kfree 0x80401000] s1
          = some s →
        ∀ a, 1 ≤ s.num_phys_page (xv6.get_index_pte a) → ¬ OnFreeList s.mem s.freelist a := by
  obtain ⟨s1, hr, h⟩ :=
    C7_owned_calls_keep_free_list_unowned xv6 emptyKmem 0x80400000 0x80402000 2 rfl
      (fun _ => rfl) (by decide) (by decide) (by decide) (by decide) (by decide)
  obtain ⟨s1', hr', hch, _, _, _⟩ :=
    freerange_seeds_empty xv6 emptyKmem 0x80400000 0x80402000 2 rfl (fun _ => rfl)
      (by decide) (by decide) (by decide) (by decide)
  rw [hr] at hr'
  injection hr' with _ he
  subst he
  have hl : (seededFrames 0x80400000 0x80402000).reverse = [0x80401000, 0x80400000] := by
    decide
  rw [hl] at hch
  have hhead : s1.freelist = 0x80401000 := hch.1
  have hne : s1.freelist ≠ 0 := by rw [hhead]; decide
  have h2 : (kalloc xv6 s1).2.num_phys_page (xv6.get_index_pte 0x80401000) = 1 := by
    rw [kalloc_num_phys_page xv6 s1 hne, hhead, setCount_same]
  have h3 : (increment_page_num xv6 0x80401000 (kalloc xv6 s1).2).2.num_phys_page
      (xv6.get_index_pte 0x80401000) = 2 := by
    rw [increment_num_phys_page, setCount_same, h2]
    rfl
  refine ⟨s1, hr, fun s hrun => (h _ s ?_ hrun).2⟩
  simp only [AllCalls, step, OwnedCall, true_and, h2, h3]
  refine ⟨by decide, by decide, ?_⟩
  split <;> trivial

/-- C6, as stated, fails on a second free of a seeded frame.  Seed the single frame
`A = 0x80400000` into the empty allocator (`N = 1`).  The call `kfree(A)` is not fatal and
is a call on a seeded frame; it returns with the frame linked to itself, and from then on
`getNumFreePages` does not return for any bound on the length of its walk, so there is no
free-frame count that could add up to `N`. -/
theorem C6_counterexample_second_free :
    ∃ s1, freerange xv6 1 0x80400000 0x80401000 emptyKmem = Outcome.ret () s1 ∧
      AllCalls xv6 (AllocOrFree (seededFrames 0x80400000 0x80401000))
        [Op.kfree 0x80400000] s1 ∧
      ∃ s2, run xv6 [Op.kfree 0x80400000] s1 = some s2 ∧
        ∀ fuel, getNumFreePages fuel s2 = none := by
  obtain ⟨s1, hr, hch, _, _, hc⟩ :=
    freerange_seeds_empty xv6 emptyKmem 0x80400000 0x80401000 1 rfl (fun _ => rfl)
      (by decide) (by decide) (by decide) (by decide)
  have hl : (seededFrames 0x80400000 0x80401000).reverse = [0x80400000] := by decide
  rw [hl] at hch
  have hhead : s1.freelist = 0x80400000 := hch.1
  obtain ⟨s2, hk, _, _, hz, _⟩ := kfree_valid xv6 0x80400000 s1 (by decide)
  rw [hc] at hz
  obtain ⟨hf, hm⟩ := hz (by decide)
  have hloop : readPtr s2.mem 0x80400000 = 0x80400000 := by
    rw [hm, readPtr_writePtr, hhead]
  refine ⟨s1, hr, ?_, s2, by simp only [run, step, hk], ?_⟩
  · refine ⟨?_, ?_⟩
    · show 0x80400000 ∈ seededFrames 0x80400000 0x80401000
      decide
    · split <;> trivial
  · intro fuel
    unfold getNumFreePages
    simp only [emit_freelist, lockIfUsed_freelist, hf]
    rw [countLoop_self_loop fuel _ _ _ (by decide) (by simpa using hloop)]

/-- C6, amended: seed an empty allocator by `freerange` with the `N` frames of a range
without wrap-around, all valid for `kfree` and told apart by `get_index_pte`.  After every
finite sequence of `kalloc` calls and of `kfree` calls on seeded frames whose reference
count is at least 1 when freed, every call has returned and `getNumFreePages()` (given
room for `N` nodes) returns a number which, added to the number of seeded frames with
reference count at least 1, equals `N`. -/
theorem C6_conservation (cfg : Config) (s0 : Kmem) (vstart vend fuel : Nat)
    (hempty : s0.freelist = 0) (hcounts : ∀ i, s0.num_phys_page i = 0)
    (hw1 : vend + PGSIZE < 4294967296) (hw2 : PGROUNDUP vstart + PGSIZE < 4294967296)
    (hvalid : ∀ a ∈ seededFrames vstart vend, KfreeValid cfg a)
    (hinj : ∀ a ∈ seededFrames vstart vend, ∀ b ∈ seededFrames vstart vend,
      cfg.get_index_pte a = cfg.get_index_pte b → a = b)
    (hfuel : frameCount vstart vend ≤ fuel) :
    ∃ s1, freerange cfg fuel vstart vend s0 = Outcome.ret () s1 ∧
      ∀ ops, AllCalls cfg (AllocOrFreeOwned cfg (seededFrames vstart vend)) ops s1 →
        ∃ s, run cfg ops s1 = some s ∧
          ∀ fuel', frameCount vstart vend ≤ fuel' →
            ∃ n s', getNumFreePages fuel' s = some (n, s') ∧
              n + (ownedCount cfg (seededFrames vstart vend) s : Int)
                = (frameCount vstart vend : Int) := by
  obtain ⟨s1, hr, hinv, hc⟩ :=
    freerange_seeds_ListInv cfg s0 vstart vend fuel hempty hcounts hw1 hw2 hvalid hinj hfuel
  have hlenF : (seededFrames vstart vend).length = frameCount vstart vend :=
    framesFrom_length _ _
  have hk3 : PGROUNDUP vstart + PGSIZE * frameCount vstart vend < 4294967296 := by
    unfold frameCount PGSIZE at *
    omega
  have hF : ∀ a ∈ seededFrames vstart vend, KfreeValid cfg a ∧ a < 4294967296 := by
    intro a ha
    refine ⟨hvalid a ha, ?_⟩
    have := framesFrom_lt _ _ _ ha
    omega
  have hseed : SeedInv cfg (seededFrames vstart vend) s1 (seededFrames vstart vend).reverse := by
    refine ⟨hinv, ?_, fun a _ => Or.inl (hc _)⟩
    intro a
    rw [List.mem_reverse]
    exact ⟨fun h => ⟨h, hc _⟩, fun h => h.1⟩
  refine ⟨s1, hr, ?_⟩
  intro ops hall
  obtain ⟨s, l, hrun, hs⟩ := SeedInv_run cfg _ hF hinj ops s1 _ hseed hall
  refine ⟨s, hrun, ?_⟩
  intro fuel' hfuel'
  have hcount := SeedInv_count cfg _ s l hs (framesFrom_nodup _ _)
  rw [hlenF] at hcount
  have hN : frameCount vstart vend < 2147483648 := by
    unfold frameCount PGSIZE at *
    omega
  obtain ⟨s', hg⟩ := getNumFreePages_chain fuel' s l hs.1.1 (by omega) (by omega)
  refine ⟨l.length, s', hg, ?_⟩
  omega

/-- C6 amended, instance: seed `A, A + 4096, A + 8192`; allocate twice, free the first
allocated frame (`A + 8192`), allocate again. -/
theorem C6_conservation_witness :
    ∃ s1, freerange xv6 3 0x80400000 0x80403000 emptyKmem = Outcome.ret () s1 ∧
      ∃ s, run xv6 [Op.kalloc, Op.kalloc, Op.kfree 0x80402000, Op.kalloc] s1 = some s ∧
        ∃ n s', getNumFreePages 3 s = some (n, s') ∧
          n + (ownedCount xv6 (seededFrames 0x80400000 0x80403000) s : Int) = 3 := by
  obtain ⟨s1, hr, h⟩ :=
    C6_conservation xv6 emptyKmem 0x80400000 0x80403000 3 rfl (fun _ => rfl)
      (by decide) (by decide) (by decide) (by decide) (by decide)
  obtain ⟨s1', hr', hch, _, _, _⟩ :=
    freerange_seeds_empty xv6 emptyKmem 0x80400000 0x80403000 3 rfl (fun _ => rfl)
      (by decide) (by decide) (by decide) (by decide)
  rw [hr] at hr'
  injection hr' with _ he
  subst he
  have hl : (seededFrames 0x80400000 0x80403000).reverse
      = [0x80402000, 0x80401000, 0x80400000] := by decide
  rw [hl] at hch
  have hhead : s1.freelist = 0x80402000 := hch.1
  have hne : s1.freelist ≠ 0 := by rw [hhead]; decide
  have hnext : readPtr s1.mem 0x80402000 = 0x80401000 := hch.2.2.1
  have hne2 : (kalloc xv6 s1).2.freelist ≠ 0 := by
    rw [kalloc_freelist xv6 s1 hne, hhead, hnext]; decide
  have hcnt : (kalloc xv6 (kalloc xv6 s1).2).2.num_phys_page (xv6.get_index_pte 0x80402000)
      = 1 := by
    rw [kalloc_num_phys_page xv6 _ hne2, kalloc_freelist xv6 s1 hne, hhead, hnext,
      setCount_other _ _ _ _ (by decide), kalloc_num_phys_page xv6 s1 hne, hhead,
      setCount_same]
  have hall : AllCalls xv6 (AllocOrFreeOwned xv6 (seededFrames 0x80400000 0x80403000))
      [Op.kalloc, Op.kalloc, Op.kfree 0x80402000, Op.kalloc] s1 := by
    simp only [AllCalls, step, AllocOrFreeOwned, true_and, hcnt]
    refine ⟨⟨by decide, by decide⟩, ?_⟩
    split <;> trivial
  obtain ⟨s, hrun, hg⟩ := h _ hall
  obtain ⟨n, s', hn, hsum⟩ := hg 3 (by decide)
  refine ⟨s1, hr, s, hrun, n, s', hn, ?_⟩
  have hk : frameCount 0x80400000 0x80403000 = 3 := by decide
  rw [hk] at hsum
  exact hsum

/-! ## Reference-count mutators and the free-frame count -/

theorem toUint_cast (x : Int) (h0 : 0 ≤ x) (h : x < 4294967296) : ((toUint x : Nat) : Int) = x := by
  rw [toUint_of_nonneg x h0 h]
  exact Int.toNat_of_nonneg h0

theorem decClamp_nonneg_count (c : Int) (h0 : 0 ≤ c) (h : c < 2147483648) :
    decClamp c = max (c - 1) 0 := by
  unfold decClamp toInt32
  split <;> omega

theorem decrement_fst (cfg : Config) (v : Nat) (s : Kmem) :
    (decrement_page_num cfg v s).1
      = toUint (decClamp (s.num_phys_page (cfg.get_index_pte v))) := by
  simp only [decrement_page_num, dec_clamp_num_phys_page, lockIfUsed_num_phys_page,
    setCount_same]

theorem countLoop_fst_congr (fuel : Nat) :
    ∀ (r : Nat) (c : Int) (s1 s2 : Kmem), s1.mem = s2.mem →
      (countLoop fuel r c s1).map Prod.fst = (countLoop fuel r c s2).map Prod.fst := by
  induction fuel with
  | zero =>
    intro r c s1 s2 _
    unfold countLoop
    split <;> rfl
  | succ fuel ih =>
    intro r c s1 s2 h
    unfold countLoop
    split
    · rfl
    · rw [h]
      exact ih _ _ _ _ (by simpa using h)

theorem getNumFreePages_fst_congr (fuel : Nat) (s1 s2 : Kmem) (hm : s1.mem = s2.mem)
    (hf : s1.freelist = s2.freelist) :
    (getNumFreePages fuel s1).map Prod.fst = (getNumFreePages fuel s2).map Prod.fst := by
  have h := countLoop_fst_congr fuel s1.freelist 0 (emit Ev.access (lockIfUsed s1))
    (emit Ev.access (lockIfUsed s2)) (by simpa using hm)
  unfold getNumFreePages
  simp only [emit_freelist, lockIfUsed_freelist, ← hf]
  revert h
  cases countLoop fuel s1.freelist 0 (emit Ev.access (lockIfUsed s1)) <;>
    cases countLoop fuel s1.freelist 0 (emit Ev.access (lockIfUsed s2)) <;>
    simp

/-- C12: if the frame of `v` has reference count `c` with `c + 1` representable (as the
`int` that is stored and as the `uint` that is returned), `increment_page_num(v)` stores
`c + 1` as that frame's count and returns `c + 1`; the free list, the gate flag, the memory
and every other count are unchanged. -/
theorem C12_increment_stores_and_returns (cfg : Config) (v : Nat) (s : Kmem)
    (hlo : -1 ≤ s.num_phys_page (cfg.get_index_pte v))
    (hhi : s.num_phys_page (cfg.get_index_pte v) + 1 < 2147483648) :
    (increment_page_num cfg v s).2.num_phys_page (cfg.get_index_pte v)
      = s.num_phys_page (cfg.get_index_pte v) + 1 ∧
    (((increment_page_num cfg v s).1 : Nat) : Int) = s.num_phys_page (cfg.get_index_pte v) + 1 ∧
    (increment_page_num cfg v s).2.freelist = s.freelist ∧
    (increment_page_num cfg v s).2.use_lock = s.use_lock ∧
    (increment_page_num cfg v s).2.mem = s.mem ∧
    (∀ i, i ≠ cfg.get_index_pte v →
      (increment_page_num cfg v s).2.num_phys_page i = s.num_phys_page i) := by
  have hw : toInt32 (s.num_phys_page (cfg.get_index_pte v) + 1)
      = s.num_phys_page (cfg.get_index_pte v) + 1 := by
    unfold toInt32; omega
  refine ⟨?_, ?_, increment_freelist cfg v s, increment_use_lock cfg v s,
    increment_mem cfg v s, ?_⟩
  · rw [increment_num_phys_page, setCount_same, hw]
  · rw [increment_fst, hw]
    exact toUint_cast _ (by omega) (by omega)
  · intro i hi
    rw [increment_num_phys_page, setCount_other _ _ _ _ hi]

/-- C12, instance: a second owner joins frame `0x80400000`. -/
theorem C12_increment_stores_and_returns_witness :
    (increment_page_num xv6 0x80400000 (sharedBy 1)).2.num_phys_page
        (xv6.get_index_pte 0x80400000) = 1 + 1 ∧
      (((increment_page_num xv6 0x80400000 (sharedBy 1)).1 : Nat) : Int) = 1 + 1 :=
  have h := C12_increment_stores_and_returns xv6 0x80400000 (sharedBy 1) (by decide)
    (by decide)
  ⟨h.1, h.2.1⟩

/-- C13: if the frame of `v` has reference count `c ≥ 0` (a C `int`),
`decrement_page_num(v)` stores and returns `max(c - 1, 0)`; it never changes the free list
or the memory, nor the gate flag or another count, so that `getNumFreePages()` gives the
same answer before and after, also when the count reaches 0. -/
theorem C13_decrement_never_reclaims (cfg : Config) (v : Nat) (s : Kmem)
    (h0 : 0 ≤ s.num_phys_page (cfg.get_index_pte v))
    (hint : s.num_phys_page (cfg.get_index_pte v) < 2147483648) :
    (decrement_page_num cfg v s).2.num_phys_page (cfg.get_index_pte v)
      = max (s.num_phys_page (cfg.get_index_pte v) - 1) 0 ∧
    (((decrement_page_num cfg v s).1 : Nat) : Int)
      = max (s.num_phys_page (cfg.get_index_pte v) - 1) 0 ∧
    (decrement_page_num cfg v s).2.freelist = s.freelist ∧
    (decrement_page_num cfg v s).2.mem = s.mem ∧
    (decrement_page_num cfg v s).2.use_lock = s.use_lock ∧
    (∀ i, i ≠ cfg.get_index_pte v →
      (decrement_page_num cfg v s).2.num_phys_page i = s.num_phys_page i) ∧
    (∀ fuel, (getNumFreePages fuel (decrement_page_num cfg v s).2).map Prod.fst
      = (getNumFreePages fuel s).map Prod.fst) := by
  obtain ⟨d1, d2, d3, d4⟩ := decrement_fields cfg v s
  have hd := decClamp_nonneg_count _ h0 hint
  refine ⟨?_, ?_, d2, d1, d3, ?_, ?_⟩
  · rw [d4, setCount_same, hd]
  · rw [decrement_fst, hd]
    exact toUint_cast _ (by omega) (by omega)
  · intro i hi
    rw [d4, setCount_other _ _ _ _ hi]
  · intro fuel
    exact getNumFreePages_fst_congr fuel _ _ d1 d2

/-- C13, instance: the only owner of frame `0x80400000` decrements; the count reaches 0
and the free list stays empty. -/
theorem C13_decrement_never_reclaims_witness :
    (decrement_page_num xv6 0x80400000 (sharedBy 1)).2.num_phys_page
        (xv6.get_index_pte 0x80400000) = max (1 - 1) 0 ∧
      (decrement_page_num xv6 0x80400000 (sharedBy 1)).2.freelist = 0 :=
  have h := C13_decrement_never_reclaims xv6 0x80400000 (sharedBy 1) (by decide) (by decide)
  ⟨h.1, h.2.2.1⟩

/-- C14: if the free list is a finite null-terminated chain of `n` nodes (`n` within the
range of the `int` counter), `getNumFreePages` given room for `n` nodes terminates and
returns exactly `n`; the free list, the memory, the gate flag and every count are
unchanged. -/
theorem C14_getNumFreePages_counts_chain (fuel : Nat) (s : Kmem) (l : List Nat)
    (h : FreeChain s.mem s.freelist l) (hfuel : l.length ≤ fuel)
    (hlen : l.length < 2147483648) :
    ∃ s', getNumFreePages fuel s = some ((l.length : Int), s') ∧
      s'.freelist = s.freelist ∧ s'.mem = s.mem ∧ s'.use_lock = s.use_lock ∧
      s'.num_phys_page = s.num_phys_page := by
  obtain ⟨s', hg⟩ := getNumFreePages_chain fuel s l h hfuel hlen
  obtain ⟨g1, g2, g3, g4⟩ := getNumFreePages_fields fuel s _ s' hg
  exact ⟨s', hg, g2, g1, g3, g4⟩

/-- C14, instance: the one-node free list of `freedOnce`. -/
theorem C14_getNumFreePages_counts_chain_witness :
    ∃ s', getNumFreePages 1 freedOnce = some (((([0x80400000] : List Nat).length : Nat) : Int), s')
      ∧ s'.freelist = 0x80400000 := by
  obtain ⟨s', hg, hf, _⟩ :=
    C14_getNumFreePages_counts_chain 1 freedOnce [0x80400000] (by decide) (by decide)
      (by decide)
  exact ⟨s', hg, hf⟩

/-- C18: `kfree(v)` panics exactly when `v` is misaligned, or below `end`, or `V2P(v)` is
at or above `PHYSTOP`, or `get_index_pte(v)` is 0; on every other input it returns.  On the
panic for an unresolved index no reference count, no free-list pointer and no byte of
memory has been modified. -/
theorem C18_kfree_fatal_iff (cfg : Config) (v : Nat) (s : Kmem) :
    ((∃ msg s', kfree cfg v s = Outcome.fatal msg s') ↔
      (v % 4096 ≠ 0 ∨ v < cfg.kend ∨ cfg.PHYSTOP ≤ cfg.V2P v ∨ cfg.get_index_pte v = 0)) ∧
    (¬ (v % 4096 ≠ 0 ∨ v < cfg.kend ∨ cfg.PHYSTOP ≤ cfg.V2P v ∨ cfg.get_index_pte v = 0) →
      ∃ s', kfree cfg v s = Outcome.ret () s') ∧
    (¬ (v % 4096 ≠ 0 ∨ v < cfg.kend ∨ cfg.PHYSTOP ≤ cfg.V2P v) → cfg.get_index_pte v = 0 →
      ∃ s', kfree cfg v s = Outcome.fatal "kfree: pte number could not be obtained" s' ∧
        s'.num_phys_page = s.num_phys_page ∧ s'.freelist = s.freelist ∧ s'.mem = s.mem ∧
        s'.use_lock = s.use_lock) := by
  have hunres : ¬ (v % 4096 ≠ 0 ∨ v < cfg.kend ∨ cfg.PHYSTOP ≤ cfg.V2P v) →
      cfg.get_index_pte v = 0 →
      kfree cfg v s
        = Outcome.fatal "kfree: pte number could not be obtained" (lockIfUsed s) := by
    intro h1 h2
    have h1' : ¬ (v % PGSIZE ≠ 0 ∨ v < cfg.kend ∨ cfg.V2P v ≥ cfg.PHYSTOP) := h1
    unfold kfree
    rw [if_neg h1']
    simp only [h2, if_true]
  have hvalid : ¬ (v % 4096 ≠ 0 ∨ v < cfg.kend ∨ cfg.PHYSTOP ≤ cfg.V2P v ∨
      cfg.get_index_pte v = 0) → KfreeValid cfg v := by
    intro h
    refine ⟨?_, ?_, ?_, ?_⟩
    · by_contra hc; exact h (Or.inl hc)
    · by_contra hc; exact h (Or.inr (Or.inl (by omega)))
    · by_contra hc; exact h (Or.inr (Or.inr (Or.inl (by omega))))
    · intro hc; exact h (Or.inr (Or.inr (Or.inr hc)))
  refine ⟨⟨?_, ?_⟩, ?_, ?_⟩
  · rintro ⟨msg, s', hk⟩
    by_contra hn
    obtain ⟨s'', hk', _⟩ := kfree_valid cfg v s (hvalid hn)
    rw [hk] at hk'
    cases hk'
  · intro h
    by_cases h1 : v % 4096 ≠ 0 ∨ v < cfg.kend ∨ cfg.PHYSTOP ≤ cfg.V2P v
    · exact ⟨_, _, kfree_invalid cfg v s h1⟩
    · have h2 : cfg.get_index_pte v = 0 := by
        rcases h with h | h | h | h
        · exact absurd (Or.inl h) h1
        · exact absurd (Or.inr (Or.inl h)) h1
        · exact absurd (Or.inr (Or.inr h)) h1
        · exact h
      exact ⟨_, _, hunres h1 h2⟩
  · intro hn
    obtain ⟨s', hk, _⟩ := kfree_valid cfg v s (hvalid hn)
    exact ⟨s', hk⟩
  · intro h1 h2
    exact ⟨_, hunres h1 h2, by simp, by simp, by simp, by simp⟩

/-! ## The gate and the event log -/

theorem Accesses.refl (s : Kmem) : Accesses s s 0 := by
  simp [Accesses]

theorem Accesses.trans {s1 s2 s3 : Kmem} {n m : Nat} (h1 : Accesses s1 s2 n)
    (h2 : Accesses s2 s3 m) : Accesses s1 s3 (n + m) := by
  refine ⟨?_, h2.2.trans h1.2⟩
  rw [h2.1, h1.1, List.append_assoc, ← List.replicate_add]

theorem Accesses_emit (s : Kmem) : Accesses s (emit Ev.access s) 1 := by
  simp [Accesses, emit]

theorem Accesses_decCount (i : Nat) (s : Kmem) : Accesses s (decCount i s) 1 := by
  simp [Accesses, decCount, emit]

theorem Accesses_clampCount (i : Nat) (s : Kmem) : ∃ n, Accesses s (clampCount i s) n := by
  unfold clampCount
  simp only []
  split
  · exact ⟨2, by simp [Accesses, emit]⟩
  · exact ⟨1, by simp [Accesses, emit]⟩

theorem gate_wrap (s s2 : Kmem) (n : Nat) (h : Accesses (lockIfUsed s) s2 n) :
    (unlockIfUsed s2).log = s.log ++ gateTrace s.use_lock n ∧
      (unlockIfUsed s2).use_lock = s.use_lock := by
  obtain ⟨hl, hu⟩ := h
  rw [lockIfUsed_use_lock] at hu
  refine ⟨?_, by rw [unlockIfUsed_use_lock, hu]⟩
  unfold unlockIfUsed gateTrace
  rw [hu]
  unfold lockIfUsed at hl
  by_cases h0 : s.use_lock ≠ 0
  · rw [if_pos h0] at hl
    rw [if_pos h0, if_pos h0]
    simp [emit, hl]
  · rw [if_neg h0] at hl
    rw [if_neg h0, if_neg h0]
    exact hl

theorem kalloc_log (cfg : Config) (s : Kmem) :
    ∃ n, (kalloc cfg s).2.log = s.log ++ gateTrace s.use_lock n := by
  unfold kalloc
  simp only []
  split
  · exact ⟨3, (gate_wrap s _ 3 (by simp [Accesses, emit])).1⟩
  · exact ⟨1, (gate_wrap s _ 1 (by simp [Accesses, emit])).1⟩

theorem increment_log (cfg : Config) (v : Nat) (s : Kmem) :
    (increment_page_num cfg v s).2.log = s.log ++ gateTrace s.use_lock 2 := by
  unfold increment_page_num
  exact (gate_wrap s _ 2 (by simp [Accesses, emit])).1

theorem get_phys_count_log (cfg : Config) (v : Nat) (s : Kmem) :
    (get_phys_count cfg v s).2.log = s.log ++ gateTrace s.use_lock 1 := by
  unfold get_phys_count
  exact (gate_wrap s _ 1 (by simp [Accesses, emit])).1

theorem decrement_log (cfg : Config) (v : Nat) (s : Kmem) :
    ∃ n, (decrement_page_num cfg v s).2.log = s.log ++ gateTrace s.use_lock n := by
  unfold decrement_page_num
  obtain ⟨n, hn⟩ := Accesses_clampCount (cfg.get_index_pte v)
    (decCount (cfg.get_index_pte v) (lockIfUsed s))
  exact ⟨1 + n + 1, (gate_wrap s _ _
    (((Accesses_decCount _ _).trans hn).trans (Accesses_emit _))).1⟩

theorem kfree_log (cfg : Config) (v : Nat) (s s' : Kmem)
    (h : kfree cfg v s = Outcome.ret () s') :
    ∃ n, s'.log = s.log ++ gateTrace s.use_lock n ∧ s'.use_lock = s.use_lock := by
  obtain ⟨n, hn⟩ := Accesses_clampCount (cfg.get_index_pte v)
    (decCount (cfg.get_index_pte v) (lockIfUsed s))
  have h3 := ((Accesses_decCount (cfg.get_index_pte v) (lockIfUsed s)).trans hn).trans
    (Accesses_emit _)
  unfold kfree at h
  split at h
  · cases h
  · simp only [] at h
    split at h
    · cases h
    · split at h
      · cases h
        exact ⟨1 + n + 1 + 2, gate_wrap s _ _ (h3.trans (by simp [Accesses, emit]))⟩
      · cases h
        exact ⟨1 + n + 1, gate_wrap s _ _ h3⟩

theorem countLoop_log (fuel : Nat) :
    ∀ (r : Nat) (c : Int) (s : Kmem) (n : Int) (s' : Kmem),
      countLoop fuel r c s = some (n, s') → ∃ k, Accesses s s' k := by
  induction fuel with
  | zero =>
    intro r c s n s' h
    unfold countLoop at h
    split at h
    · cases h; exact ⟨0, Accesses.refl s⟩
    · cases h
  | succ fuel ih =>
    intro r c s n s' h
    unfold countLoop at h
    split at h
    · cases h; exact ⟨0, Accesses.refl s⟩
    · obtain ⟨k, hk⟩ := ih _ _ _ _ _ h
      exact ⟨1 + k, (Accesses_emit s).trans hk⟩

theorem getNumFreePages_log (fuel : Nat) (s : Kmem) (c : Int) (s' : Kmem)
    (h : getNumFreePages fuel s = some (c, s')) :
    ∃ n, s'.log = s.log ++ gateTrace s.use_lock n := by
  unfold getNumFreePages at h
  simp only [] at h
  split at h
  · cases h
  · rename_i c2 s2 hc
    cases h
    obtain ⟨k, hk⟩ := countLoop_log fuel _ _ _ _ _ hc
    exact ⟨1 + k, (gate_wrap s _ _ ((Accesses_emit _).trans hk)).1⟩

/-- C19: each of `kalloc`, `kfree`, `getNumFreePages`, `increment_page_num`,
`decrement_page_num` and `get_phys_count`, when it returns, has added to the event log
exactly `gateTrace`: with the gate in use (`use_lock` non-zero, in particular 1) one
`acquire`, then all its accesses to the free list and the count table, then one `release`,
so the lock is not held on return; with `use_lock = 0` its accesses only, no `acquire` and
no `release`. -/
theorem C19_gate_discipline (cfg : Config) (v fuel : Nat) (s : Kmem) :
    (∃ n, (kalloc cfg s).2.log = s.log ++ gateTrace s.use_lock n) ∧
    (∀ s', kfree cfg v s = Outcome.ret () s' →
      ∃ n, s'.log = s.log ++ gateTrace s.use_lock n) ∧
    (∀ c s', getNumFreePages fuel s = some (c, s') →
      ∃ n, s'.log = s.log ++ gateTrace s.use_lock n) ∧
    (∃ n, (increment_page_num cfg v s).2.log = s.log ++ gateTrace s.use_lock n) ∧
    (∃ n, (decrement_page_num cfg v s).2.log = s.log ++ gateTrace s.use_lock n) ∧
    (∃ n, (get_phys_count cfg v s).2.log = s.log ++ gateTrace s.use_lock n) ∧
    (∀ n, gateTrace 1 n = Ev.acquire :: (List.replicate n Ev.access ++ [Ev.release])) ∧
    (∀ n, gateTrace 0 n = List.replicate n Ev.access) := by
  refine ⟨kalloc_log cfg s, ?_, ?_, ⟨2, increment_log cfg v s⟩, decrement_log cfg v s,
    ⟨1, get_phys_count_log cfg v s⟩, fun n => rfl, fun n => rfl⟩
  · intro s' h
    obtain ⟨n, hn, _⟩ := kfree_log cfg v s s' h
    exact ⟨n, hn⟩
  · intro c s' h
    exact getNumFreePages_log fuel s c s' h

/-! ## The gate flag and the two-phase initialisation -/

theorem kfree_use_lock (cfg : Config) (v : Nat) (s s' : Kmem) (msg : String)
    (h : kfree cfg v s = Outcome.ret () s' ∨ kfree cfg v s = Outcome.fatal msg s') :
    s'.use_lock = s.use_lock := by
  rcases h with h | h
  · obtain ⟨_, _, hu⟩ := kfree_log cfg v s s' h
    exact hu
  · unfold kfree at h
    split at h
    · cases h; rfl
    · simp only [] at h
      split at h
      · cases h; exact lockIfUsed_use_lock s
      · cases h

theorem freerangeLoop_use_lock (cfg : Config) (vend : Nat) (fuel : Nat) :
    ∀ (p : Nat) (s s' : Kmem) (msg : String),
      (freerangeLoop cfg vend fuel p s = Outcome.ret () s' ∨
        freerangeLoop cfg vend fuel p s = Outcome.fatal msg s') →
      s'.use_lock = s.use_lock := by
  induction fuel with
  | zero =>
    intro p s s' msg h
    simp only [freerangeLoop] at h
    split at h
    · rcases h with h | h <;> cases h
    · rcases h with h | h
      · cases h; rfl
      · cases h
  | succ fuel ih =>
    intro p s s' msg h
    simp only [freerangeLoop] at h
    split at h
    · split at h
      · rename_i u s1 hk
        have h1 := kfree_use_lock cfg p s s1 msg (Or.inl hk)
        have h2 := ih _ _ s' msg h
        rw [h2]
        exact h1
      · rename_i m s1 hk
        rcases h with h | h
        · cases h
        · cases h
          exact kfree_use_lock cfg p s s' _ (Or.inr hk)
      · rcases h with h | h <;> cases h
    · rcases h with h | h
      · cases h; rfl
      · cases h

theorem freerangeLoop_ungated_log (cfg : Config) (vend : Nat) (fuel : Nat) :
    ∀ (p : Nat) (s s' : Kmem), s.use_lock = 0 →
      freerangeLoop cfg vend fuel p s = Outcome.ret () s' → ∃ n, Accesses s s' n := by
  induction fuel with
  | zero =>
    intro p s s' _ h
    simp only [freerangeLoop] at h
    split at h
    · cases h
    · cases h; exact ⟨0, Accesses.refl s⟩
  | succ fuel ih =>
    intro p s s' h0 h
    simp only [freerangeLoop] at h
    split at h
    · split at h
      · rename_i u s1 hk
        obtain ⟨n, hn, hu⟩ := kfree_log cfg p s s1 hk
        have hg : gateTrace s.use_lock n = List.replicate n Ev.access := by
          rw [h0]; rfl
        rw [hg] at hn
        have hs1 : Accesses s s1 n := ⟨hn, hu⟩
        have hs2 : ∀ t : Nat → Int,
            Accesses s1 (emit Ev.access { s1 with num_phys_page := t }) 1 :=
          fun t => by simp [Accesses, emit]
        obtain ⟨m, hm⟩ := ih _ _ s' (by show s1.use_lock = 0; rw [hu, h0]) h
        exact ⟨n + (1 + m), hs1.trans ((hs2 _).trans hm)⟩
      · cases h
      · cases h
    · cases h; exact ⟨0, Accesses.refl s⟩

theorem step_use_lock (cfg : Config) (op : Op) (s s' : Kmem) (h : step cfg op s = some s') :
    s'.use_lock = s.use_lock := by
  cases op with
  | kalloc => cases h; exact kalloc_use_lock cfg s
  | kfree v => exact kfree_use_lock cfg v s s' "" (Or.inl (step_kfree_some cfg v s s' h))
  | increment_page_num v => cases h; exact increment_use_lock cfg v s
  | decrement_page_num v => cases h; exact (decrement_fields cfg v s).2.2.1
  | get_phys_count v => cases h; exact (get_phys_count_fields cfg v s).2.2.1
  | getNumFreePages fuel =>
    obtain ⟨n, hg⟩ := step_getNumFreePages_some cfg fuel s s' h
    exact (getNumFreePages_fields fuel s n s' hg).2.2.1

theorem run_use_lock (cfg : Config) (ops : List Op) :
    ∀ (s s' : Kmem), run cfg ops s = some s' → s'.use_lock = s.use_lock := by
  induction ops with
  | nil => intro s s' h; cases h; rfl
  | cons op ops ih =>
    intro s s' h
    unfold run at h
    split at h
    · rename_i s1 hs
      rw [ih s1 s' h]
      exact step_use_lock cfg op s s1 hs
    · cases h

theorem kinit2_ret (cfg : Config) (fuel vstart vend : Nat) (s s' : Kmem)
    (h : kinit2 cfg fuel vstart vend s = Outcome.ret () s') :
    ∃ s1, freerange cfg fuel vstart vend s = Outcome.ret () s1 ∧
      s' = { s1 with use_lock := 1 } := by
  unfold kinit2 at h
  split at h
  · rename_i u s1 hf
    cases h
    exact ⟨s1, hf, rfl⟩
  · cases h
  · cases h

/-- C16: `kinit1` is `initlock`, then `use_lock = 0`, then `freerange`: when it returns the
gate flag is 0, no gate event occurred during the seeding, and on an empty allocator the
free list holds the frames of the range.  `kinit2` runs `freerange` on the entry state,
with the gate flag at its prior value throughout (with a prior value of 0 the seeding logs
no `acquire` and no `release`), and only then sets `use_lock = 1`; if the seeding panics the
flag is never set.  No sequence of `kalloc`, `kfree`, `getNumFreePages`,
`increment_page_num`, `decrement_page_num`, `get_phys_count` calls, and no `freerange`,
changes `use_lock`: once `kinit2` has returned the gate stays enabled. -/
theorem C16_two_phase_init (cfg : Config) (fuel vstart vend : Nat) (s : Kmem) :
    kinit1 cfg fuel vstart vend s
      = freerange cfg fuel vstart vend { emit Ev.initlock s with use_lock := 0 } ∧
    (∀ s', kinit1 cfg fuel vstart vend s = Outcome.ret () s' →
      s'.use_lock = 0 ∧ ∃ n, s'.log = s.log ++ Ev.initlock :: List.replicate n Ev.access) ∧
    (s.freelist = 0 → (∀ i, s.num_phys_page i = 0) → vend + PGSIZE < 4294967296 →
      PGROUNDUP vstart + PGSIZE < 4294967296 →
      (∀ a ∈ seededFrames vstart vend, KfreeValid cfg a) → frameCount vstart vend ≤ fuel →
      ∃ s', kinit1 cfg fuel vstart vend s = Outcome.ret () s' ∧
        FreeChain s'.mem s'.freelist (seededFrames vstart vend).reverse) ∧
    (∀ s', kinit2 cfg fuel vstart vend s = Outcome.ret () s' →
      s'.use_lock = 1 ∧
      ∃ s1, freerange cfg fuel vstart vend s = Outcome.ret () s1 ∧
        s1.use_lock = s.use_lock ∧ s' = { s1 with use_lock := 1 } ∧
        (s.use_lock = 0 → ∃ n, s'.log = s.log ++ List.replicate n Ev.access)) ∧
    (∀ msg s', kinit2 cfg fuel vstart vend s = Outcome.fatal msg s' →
      s'.use_lock = s.use_lock) ∧
    (∀ s', freerange cfg fuel vstart vend s = Outcome.ret () s' →
      s'.use_lock = s.use_lock) ∧
    (∀ ops s', run cfg ops s = some s' → s'.use_lock = s.use_lock) ∧
    (∀ s' ops s'', kinit2 cfg fuel vstart vend s = Outcome.ret () s' →
      run cfg ops s' = some s'' → s''.use_lock = 1) := by
  have hk2 : ∀ s', kinit2 cfg fuel vstart vend s = Outcome.ret () s' → s'.use_lock = 1 := by
    intro s' h
    obtain ⟨s1, _, he⟩ := kinit2_ret cfg fuel vstart vend s s' h
    rw [he]
  refine ⟨rfl, ?_, ?_, ?_, ?_, ?_, ?_, ?_⟩
  · intro s' h
    have hu := freerangeLoop_use_lock cfg vend fuel _ _ s' "" (Or.inl h)
    obtain ⟨n, hn, _⟩ := freerangeLoop_ungated_log cfg vend fuel _ _ s' rfl h
    refine ⟨hu, n, ?_⟩
    rw [hn]
    simp [emit]
  · intro h0 hc hw1 hw2 hv hf
    obtain ⟨s', hr, hch, _⟩ := freerange_seeds_empty cfg
      { emit Ev.initlock s with use_lock := 0 } vstart vend fuel h0 hc hw1 hw2 hv hf
    exact ⟨s', hr, hch⟩
  · intro s' h
    refine ⟨hk2 s' h, ?_⟩
    obtain ⟨s1, hf, he⟩ := kinit2_ret cfg fuel vstart vend s s' h
    refine ⟨s1, hf, freerangeLoop_use_lock cfg vend fuel _ s s1 "" (Or.inl hf), he, ?_⟩
    intro h0
    obtain ⟨n, hn, _⟩ := freerangeLoop_ungated_log cfg vend fuel _ s s1 h0 hf
    exact ⟨n, by rw [he]; exact hn⟩
  · intro msg s' h
    unfold kinit2 at h
    split at h
    · cases h
    · rename_i m s1 hf
      cases h
      exact freerangeLoop_use_lock cfg vend fuel _ s s' _ (Or.inr hf)
    · cases h
  · intro s' h
    exact freerangeLoop_use_lock cfg vend fuel _ s s' "" (Or.inl h)
  · intro ops s' h
    exact run_use_lock cfg ops s s' h
  · intro s' ops s'' h hr
    rw [run_use_lock cfg ops s' s'' hr]
    exact hk2 s' h

/-! ## The Range Initializer -/

theorem mem_framesFrom (k : Nat) :
    ∀ p a, a ∈ framesFrom p k ↔ ∃ i, i < k ∧ a = p + PGSIZE * i := by
  induction k with
  | zero =>
    intro p a
    simp [framesFrom]
  | succ k ih =>
    intro p a
    simp only [framesFrom, List.mem_cons, ih]
    constructor
    · rintro (h | ⟨i, hi, h⟩)
      · exact ⟨0, by omega, by omega⟩
      · exact ⟨i + 1, by omega, by rw [h]; unfold PGSIZE; omega⟩
    · rintro ⟨i, hi, h⟩
      cases i with
      | zero => left; omega
      | succ i => right; exact ⟨i, by omega, by rw [h]; unfold PGSIZE; omega⟩

theorem framesFrom_ascending (k : Nat) : ∀ p, (framesFrom p k).Pairwise (· < ·) := by
  induction k with
  | zero => intro p; exact List.Pairwise.nil
  | succ k ih =>
    intro p
    refine List.Pairwise.cons ?_ (ih _)
    intro a ha
    have := framesFrom_ge k _ _ ha
    unfold PGSIZE at this
    omega

/-- Without address wrap-around the loop of `freerange` is the Range Initializer of the
specification on the complete frames of the range. -/
theorem freerangeLoop_eq_seedEach (cfg : Config) (vend : Nat) (k : Nat) :
    ∀ (fuel p : Nat) (s : Kmem), k ≤ fuel →
      PGSIZE * k ≤ vend - p → vend < p + PGSIZE * (k + 1) →
      p + PGSIZE * (k + 1) < 4294967296 →
      freerangeLoop cfg vend fuel p s = seedEach cfg (framesFrom p k) s := by
  induction k with
  | zero =>
    intro fuel p s _ _ h2 h3
    have hnot : ¬ ((p + PGSIZE) % 4294967296 ≤ vend) := by
      unfold PGSIZE at *
      omega
    cases fuel <;> simp [freerangeLoop, hnot, framesFrom, seedEach]
  | succ k ih =>
    intro fuel p s hfuel h1 h2 h3
    obtain ⟨fuel, rfl⟩ : ∃ f, fuel = f + 1 := ⟨fuel - 1, by omega⟩
    have hmod : (p + PGSIZE) % 4294967296 = p + PGSIZE := by
      apply Nat.mod_eq_of_lt
      unfold PGSIZE at *
      omega
    have hgo : p + PGSIZE ≤ vend := by
      unfold PGSIZE at *
      omega
    simp only [freerangeLoop, hmod, hgo, if_true, framesFrom, seedEach]
    cases kfree cfg p s with
    | ret u s1 =>
      exact ih fuel (p + PGSIZE) _ (by omega) (by unfold PGSIZE at *; omega)
        (by unfold PGSIZE at *; omega) (by unfold PGSIZE at *; omega)
    | fatal msg s1 => rfl
    | fuelOut => rfl

/-- The Range Initializer on frames that are all valid for `kfree` returns, and leaves the
count of every index it visited (and of every index that was 0 before) at 0. -/
theorem seedEach_counts (cfg : Config) (ps : List Nat) :
    ∀ s : Kmem, (∀ a ∈ ps, KfreeValid cfg a) →
      ∃ s', seedEach cfg ps s = Outcome.ret () s' ∧
        ∀ j, (j ∈ ps.map cfg.get_index_pte ∨ s.num_phys_page j = 0) →
          s'.num_phys_page j = 0 := by
  induction ps with
  | nil =>
    intro s _
    refine ⟨s, rfl, ?_⟩
    intro j hj
    rcases hj with hj | hj
    · cases hj
    · exact hj
  | cons p ps ih =>
    intro s hv
    obtain ⟨s1, hk, _, hc, _⟩ := kfree_valid cfg p s (hv p (List.mem_cons_self _ _))
    obtain ⟨s', hs', hz⟩ := ih
      (emit Ev.access
        { s1 with num_phys_page := setCount s1.num_phys_page (cfg.get_index_pte p) 0 })
      (fun a ha => hv a (List.mem_cons_of_mem _ ha))
    refine ⟨s', by simp only [seedEach, hk]; exact hs', ?_⟩
    intro j hj
    apply hz
    by_cases hjp : j = cfg.get_index_pte p
    · right
      show setCount s1.num_phys_page (cfg.get_index_pte p) 0 j = 0
      rw [hjp, setCount_same]
    · rcases hj with hj | hj
      · left
        rcases List.mem_cons.mp hj with h | h
        · exact absurd h hjp
        · exact h
      · right
        show setCount s1.num_phys_page (cfg.get_index_pte p) 0 j = 0
        rw [setCount_other _ _ _ _ hjp, hc, setCount_other _ _ _ _ hjp]
        exact hj

/-- C15: for a range without address wrap-around whose complete frames are all valid for
`kfree`, `freerange` is the run of "`kfree(p)`, then reset the count of `p` to 0" over the
addresses `PGROUNDUP(vstart) + 4096 * i` with `p + 4096 ≤ vend`, in ascending order, and
over nothing else (no frame at all if `PGROUNDUP(vstart) + 4096 > vend`); it returns with
the count of each such frame at 0; on an empty allocator the free list then holds exactly
these `(vend - PGROUNDUP(vstart)) / 4096` frames, each once. -/
theorem C15_freerange_visits_complete_frames (cfg : Config) (s : Kmem)
    (vstart vend fuel : Nat)
    (hw1 : vend + PGSIZE < 4294967296) (hw2 : PGROUNDUP vstart + PGSIZE < 4294967296)
    (hvalid : ∀ a ∈ seededFrames vstart vend, KfreeValid cfg a)
    (hfuel : frameCount vstart vend ≤ fuel) :
    freerange cfg fuel vstart vend s = seedEach cfg (seededFrames vstart vend) s ∧
    (∀ a, a ∈ seededFrames vstart vend ↔
      ∃ i, a = PGROUNDUP vstart + 4096 * i ∧ a + 4096 ≤ vend) ∧
    (seededFrames vstart vend).Pairwise (· < ·) ∧
    (vend < PGROUNDUP vstart + 4096 → seededFrames vstart vend = []) ∧
    ∃ s', freerange cfg fuel vstart vend s = Outcome.ret () s' ∧
      (∀ a ∈ seededFrames vstart vend, s'.num_phys_page (cfg.get_index_pte a) = 0) ∧
      (s.freelist = 0 → (∀ i, s.num_phys_page i = 0) →
        FreeChain s'.mem s'.freelist (seededFrames vstart vend).reverse ∧
        (seededFrames vstart vend).Nodup ∧
        (seededFrames vstart vend).length = (vend - PGROUNDUP vstart) / 4096) := by
  have hk1 : PGSIZE * frameCount vstart vend ≤ vend - PGROUNDUP vstart := by
    unfold frameCount PGSIZE
    omega
  have hk2 : vend < PGROUNDUP vstart + PGSIZE * (frameCount vstart vend + 1) := by
    unfold frameCount PGSIZE
    omega
  have hk3 : PGROUNDUP vstart + PGSIZE * (frameCount vstart vend + 1) < 4294967296 := by
    unfold frameCount PGSIZE at *
    omega
  have heq : freerange cfg fuel vstart vend s = seedEach cfg (seededFrames vstart vend) s :=
    freerangeLoop_eq_seedEach cfg vend _ fuel _ s hfuel hk1 hk2 hk3
  refine ⟨heq, ?_, framesFrom_ascending _ _, ?_, ?_⟩
  · intro a
    unfold seededFrames
    rw [mem_framesFrom]
    unfold frameCount PGSIZE
    constructor
    · rintro ⟨i, hi, h⟩
      exact ⟨i, h, by omega⟩
    · rintro ⟨i, h, hi⟩
      exact ⟨i, by omega, h⟩
  · intro h
    have h0 : frameCount vstart vend = 0 := by
      unfold frameCount PGSIZE
      omega
    unfold seededFrames
    rw [h0]
    rfl
  · obtain ⟨s', hs', hz⟩ := seedEach_counts cfg (seededFrames vstart vend) s hvalid
    rw [← heq] at hs'
    refine ⟨s', hs', fun a ha => hz _ (Or.inl (List.mem_map_of_mem _ ha)), ?_⟩
    intro h0 hc
    obtain ⟨s1, hr, hch, _⟩ :=
      freerange_seeds_empty cfg s vstart vend fuel h0 hc hw1 hw2 hvalid hfuel
    rw [hs'] at hr
    injection hr with _ he
    subst he
    exact ⟨hch, framesFrom_nodup _ _, framesFrom_length _ _⟩

/-- C15, instance: the range `[0x80400800, 0x80403800)` holds the two complete frames
`0x80401000` and `0x80402000`; the partial frames at both ends are not freed. -/
theorem C15_freerange_visits_complete_frames_witness :
    freerange xv6 2 0x80400800 0x80403800 emptyKmem
        = seedEach xv6 [0x80401000, 0x80402000] emptyKmem ∧
      ∃ s', freerange xv6 2 0x80400800 0x80403800 emptyKmem = Outcome.ret () s' ∧
        FreeChain s'.mem s'.freelist [0x80402000, 0x80401000] := by
  obtain ⟨h1, _, _, _, s', hr, _, hch⟩ :=
    C15_freerange_visits_complete_frames xv6 emptyKmem 0x80400800 0x80403800 2
      (by decide) (by decide) (by decide) (by decide)
  exact ⟨h1, s', hr, (hch rfl (fun _ => rfl)).1⟩

/-! ## Finite chains are duplicate-free and short -/

theorem FreeChain_suffix (m : Nat → Nat) (t1 : List Nat) :
    ∀ (q b : Nat) (t2 : List Nat), FreeChain m q (t1 ++ b :: t2) →
      FreeChain m (readPtr m b) t2 := by
  induction t1 with
  | nil => intro q b t2 h; exact h.2.2
  | cons a t1 ih => intro q b t2 h; exact ih _ b t2 h.2.2

theorem FreeChain_nodup (m : Nat → Nat) (l : List Nat) :
    ∀ p, FreeChain m p l → l.Nodup := by
  induction l with
  | nil => intro p _; exact List.nodup_nil
  | cons a t ih =>
    intro p h
    obtain ⟨_, _, h3⟩ := h
    refine List.nodup_cons.mpr ⟨?_, ih _ h3⟩
    intro ha
    obtain ⟨t1, t2, rfl⟩ := List.append_of_mem ha
    have hsuf := FreeChain_suffix m t1 _ a t2 h3
    have heq := FreeChain_unique m _ _ _ h3 hsuf
    have hlen := congrArg List.length heq
    simp at hlen
    omega

theorem FreeChain_lt (m : Nat → Nat) (l : List Nat) :
    ∀ p, FreeChain m p l → p < 4294967296 → ∀ a ∈ l, a < 4294967296 := by
  induction l with
  | nil => intro p _ _ a ha; cases ha
  | cons b t ih =>
    intro p h hp a ha
    obtain ⟨h1, _, h3⟩ := h
    rcases List.mem_cons.mp ha with h | h
    · omega
    · exact ih _ h3 (readPtr_lt _ _) a h

theorem aligned_nodup_length (l : List Nat) (hnd : l.Nodup)
    (h : ∀ a ∈ l, a % PGSIZE = 0 ∧ a < 4294967296) : l.length ≤ 1048576 := by
  have hmap : (l.map (fun a => a / 4096)).Nodup := by
    apply List.Nodup.map_on _ hnd
    intro a ha b hb hab
    have h1 := (h a ha).1
    have h2 := (h b hb).1
    unfold PGSIZE at h1 h2
    omega
  have hsub : l.map (fun a => a / 4096) ⊆ List.range 1048576 := by
    intro x hx
    obtain ⟨a, ha, rfl⟩ := List.mem_map.mp hx
    have := (h a ha).2
    rw [List.mem_range]
    omega
  have hle := (hmap.subperm hsub).length_le
  simpa using hle

theorem aligned_chain_length (m : Nat → Nat) (p : Nat) (l : List Nat)
    (h : FreeChain m p l) (hp : p < 4294967296) (hal : ∀ a ∈ l, a % PGSIZE = 0) :
    l.length ≤ 1048576 :=
  aligned_nodup_length l (FreeChain_nodup m l p h)
    (fun a ha => ⟨hal a ha, FreeChain_lt m l p h hp a ha⟩)

/-! ## Free, then allocate -/

/-- C11, as stated, fails when the frame with count 1 is on the free list.  Seed the
single frame `A = 0x80400000` and call `increment_page_num(A)`: `A` is valid, its count is
1, `getNumFreePages()` returns 1 and the free list is `[A]`.  Then `kfree(A)` links `A` to
itself: `getNumFreePages()` no longer returns (it does not return 2), and after the
following `kalloc()`, which does return `A`, the free list is not the list `[A]` it was
before the `kfree`. -/
theorem C11_counterexample_counted_frame_on_list :
    ∃ s1, freerange xv6 1 0x80400000 0x80401000 emptyKmem = Outcome.ret () s1 ∧
      KfreeValid xv6 0x80400000 ∧
      (increment_page_num xv6 0x80400000 s1).2.num_phys_page (xv6.get_index_pte 0x80400000)
        = 1 ∧
      (∃ sa, getNumFreePages 1 (increment_page_num xv6 0x80400000 s1).2 = some (1, sa)) ∧
      FreeChain (increment_page_num xv6 0x80400000 s1).2.mem
        (increment_page_num xv6 0x80400000 s1).2.freelist [0x80400000] ∧
      ∃ s3, kfree xv6 0x80400000 (increment_page_num xv6 0x80400000 s1).2
          = Outcome.ret () s3 ∧
        (∀ fuel, getNumFreePages fuel s3 = none) ∧
        (kalloc xv6 s3).1 = 0x80400000 ∧
        ¬ FreeChain (kalloc xv6 s3).2.mem (kalloc xv6 s3).2.freelist [0x80400000] := by
  obtain ⟨s1, hr, hch, _, _, hc⟩ :=
    freerange_seeds_empty xv6 emptyKmem 0x80400000 0x80401000 1 rfl (fun _ => rfl)
      (by decide) (by decide) (by decide) (by decide)
  have hl : (seededFrames 0x80400000 0x80401000).reverse = [0x80400000] := by decide
  rw [hl] at hch
  have hhead : s1.freelist = 0x80400000 := hch.1
  have hcnt : (increment_page_num xv6 0x80400000 s1).2.num_phys_page
      (xv6.get_index_pte 0x80400000) = 1 := by
    rw [increment_num_phys_page, setCount_same, hc]
    rfl
  have hch2 : FreeChain (increment_page_num xv6 0x80400000 s1).2.mem
      (increment_page_num xv6 0x80400000 s1).2.freelist [0x80400000] := by
    rw [increment_mem, increment_freelist]
    exact hch
  obtain ⟨sa, hsa⟩ := getNumFreePages_chain 1 _ _ hch2 (by decide) (by decide)
  obtain ⟨s3, hk, _, _, hz, _⟩ :=
    kfree_valid xv6 0x80400000 (increment_page_num xv6 0x80400000 s1).2 (by decide)
  rw [hcnt] at hz
  obtain ⟨hf, hm⟩ := hz (by decide)
  have hloop : readPtr s3.mem 0x80400000 = 0x80400000 := by
    rw [hm, readPtr_writePtr, increment_freelist, hhead]
  have hne : s3.freelist ≠ 0 := by rw [hf]; decide
  refine ⟨s1, hr, by decide, hcnt, ⟨sa, hsa⟩, hch2, s3, hk, ?_, ?_, ?_⟩
  · intro fuel
    unfold getNumFreePages
    simp only [emit_freelist, lockIfUsed_freelist, hf]
    rw [countLoop_self_loop fuel _ _ _ (by decide) (by simpa using hloop)]
  · rw [kalloc_fst, hf]
  · rw [kalloc_mem, kalloc_freelist xv6 s3 hne, hf, hloop]
    exact FreeChain_self_loop _ _ (by decide) hloop _

/-- C11, amended: let the free list be a finite list `l` of frames that does not contain
the valid address `v`, whose frame has reference count 1.  Then `kfree(v)` returns and
raises the result of `getNumFreePages()` from the length of `l` to that length plus 1, and
an immediately following `kalloc()` returns `v` with its count reset to 1, every other
count as before the `kfree`, and the free list again equal to `l`, with the head pointer
it had before the `kfree`. -/
theorem C11_free_then_allocate (cfg : Config) (v fuel : Nat) (s : Kmem) (l : List Nat)
    (hv : KfreeValid cfg v)
    (hc : s.num_phys_page (cfg.get_index_pte v) = 1)
    (hhead : s.freelist < 4294967296)
    (hl : FreeChain s.mem s.freelist l)
    (hal : ∀ a ∈ l, a % PGSIZE = 0)
    (hnot : v ∉ l)
    (hfuel : l.length < fuel) :
    ∃ s1, kfree cfg v s = Outcome.ret () s1 ∧
      (∃ sa, getNumFreePages fuel s = some ((l.length : Int), sa)) ∧
      (∃ sb, getNumFreePages fuel s1 = some ((l.length : Int) + 1, sb)) ∧
      (kalloc cfg s1).1 = v ∧
      (kalloc cfg s1).2.num_phys_page (cfg.get_index_pte v) = 1 ∧
      (∀ i, (kalloc cfg s1).2.num_phys_page i = s.num_phys_page i) ∧
      (kalloc cfg s1).2.freelist = s.freelist ∧
      FreeChain (kalloc cfg s1).2.mem (kalloc cfg s1).2.freelist l := by
  have hlen := aligned_chain_length s.mem s.freelist l hl hhead hal
  obtain ⟨s1, hk, _, hcnt, hz, _⟩ := kfree_valid cfg v s hv
  rw [hc] at hcnt hz
  have hd : decClamp 1 = 0 := by decide
  rw [hd] at hcnt
  obtain ⟨hf, hm⟩ := hz hd
  have hpush : FreeChain s1.mem s1.freelist (v :: l) := by
    rw [hf, hm]
    exact FreeChain_push s.mem v s.freelist l hv.ne_zero hhead hv.1 hl hal hnot
  have hne : s1.freelist ≠ 0 := by rw [hf]; exact hv.ne_zero
  have hnext : readPtr s1.mem v = s.freelist := by
    rw [hm, readPtr_writePtr, Nat.mod_eq_of_lt hhead]
  obtain ⟨sa, hsa⟩ := getNumFreePages_chain fuel s l hl (by omega) (by omega)
  obtain ⟨sb, hsb⟩ := getNumFreePages_chain fuel s1 (v :: l) hpush
    (by simp; omega) (by simp; omega)
  refine ⟨s1, hk, ⟨sa, hsa⟩, ⟨sb, by simpa using hsb⟩, by rw [kalloc_fst, hf], ?_, ?_, ?_, ?_⟩
  · rw [kalloc_num_phys_page cfg s1 hne, hf, setCount_same]
  · intro i
    rw [kalloc_num_phys_page cfg s1 hne, hf, hcnt, setCount_setCount]
    by_cases hi : i = cfg.get_index_pte v
    · rw [hi, setCount_same, hc]
    · rw [setCount_other _ _ _ _ hi]
  · rw [kalloc_freelist cfg s1 hne, hf, hnext]
  · rw [kalloc_mem, kalloc_freelist cfg s1 hne, hf]
    exact hpush.2.2

/-- C11 amended, instance: the owner of `0x80400000` frees it while `0x80401000` is the
only free frame, then allocates. -/
theorem C11_free_then_allocate_witness :
    ∃ s1, kfree xv6 0x80400000
        { sharedBy 1 with freelist := 0x80401000, mem := fun _ => 0 } = Outcome.ret () s1 ∧
      (∃ sb, getNumFreePages 2 s1 = some ((([0x80401000] : List Nat).length : Int) + 1, sb)) ∧
      (kalloc xv6 s1).1 = 0x80400000 ∧
      FreeChain (kalloc xv6 s1).2.mem (kalloc xv6 s1).2.freelist [0x80401000] := by
  obtain ⟨s1, hk, _, hb, hr, _, _, _, hch⟩ :=
    C11_free_then_allocate xv6 0x80400000 2
      { sharedBy 1 with freelist := 0x80401000, mem := fun _ => 0 } [0x80401000]
      (by decide) (by decide) (by decide) (by decide) (by decide) (by decide) (by decide)
  exact ⟨s1, hk, hb, hr, hch⟩

/-! ## Well-formedness of the free list -/

theorem FreeListWF_iff_ListInv (cfg : Config) (hinj : IndexInjective cfg) (s : Kmem) :
    FreeListWF cfg s ↔ ∃ l, ListInv cfg s l := by
  constructor
  · rintro ⟨h32, l, hch, hnd, hz⟩
    refine ⟨l, hch, h32, ?_, hz⟩
    apply List.Nodup.map_on _ hnd
    intro a ha b hb hab
    exact hinj a b (FreeChain_lt _ _ _ hch h32 a ha) (FreeChain_lt _ _ _ hch h32 b hb)
      (hz a ha).1 (hz b hb).1 hab
  · rintro ⟨l, hch, h32, hnd, hz⟩
    exact ⟨h32, l, hch, List.Nodup.of_map _ hnd, hz⟩

/-- C20: assume `get_index_pte` maps distinct frames to distinct indices.  Then the
predicate "the free list contains no frame twice and every frame on it has reference count
0" is preserved by `kalloc`, by `decrement_page_num`, by `get_phys_count`, by
`getNumFreePages`, and by every `kfree(v)` that returns and whose frame had reference count
at least 1 before the call; and it holds after `freerange` has seeded the frames of a
range into an empty allocator. -/
theorem C20_free_list_well_formed (cfg : Config) (hinj : IndexInjective cfg) :
    (∀ s, FreeListWF cfg s → FreeListWF cfg (kalloc cfg s).2) ∧
    (∀ s v, FreeListWF cfg s → FreeListWF cfg (decrement_page_num cfg v s).2) ∧
    (∀ s v, FreeListWF cfg s → FreeListWF cfg (get_phys_count cfg v s).2) ∧
    (∀ s fuel c s', FreeListWF cfg s → getNumFreePages fuel s = some (c, s') →
      FreeListWF cfg s') ∧
    (∀ s v s', FreeListWF cfg s → v < 4294967296 →
      1 ≤ s.num_phys_page (cfg.get_index_pte v) → kfree cfg v s = Outcome.ret () s' →
      FreeListWF cfg s') ∧
    (∀ s0 vstart vend fuel, s0.freelist = 0 → (∀ i, s0.num_phys_page i = 0) →
      vend + PGSIZE < 4294967296 → PGROUNDUP vstart + PGSIZE < 4294967296 →
      (∀ a ∈ seededFrames vstart vend, KfreeValid cfg a) → frameCount vstart vend ≤ fuel →
      ∃ s1, freerange cfg fuel vstart vend s0 = Outcome.ret () s1 ∧ FreeListWF cfg s1) := by
  have hiff := FreeListWF_iff_ListInv cfg hinj
  refine ⟨?_, ?_, ?_, ?_, ?_, ?_⟩
  · intro s h
    obtain ⟨l, hl⟩ := (hiff s).mp h
    exact (hiff _).mpr ⟨_, ListInv_kalloc cfg s l hl⟩
  · intro s v h
    obtain ⟨l, hl⟩ := (hiff s).mp h
    exact (hiff _).mpr ⟨_, ListInv_decrement cfg v s l hl⟩
  · intro s v h
    obtain ⟨l, hl⟩ := (hiff s).mp h
    exact (hiff _).mpr (ListInv_step cfg (Op.get_phys_count v) s _ l hl trivial rfl)
  · intro s fuel c s' h hg
    obtain ⟨l, hl⟩ := (hiff s).mp h
    obtain ⟨g1, g2, _, g4⟩ := getNumFreePages_fields fuel s c s' hg
    exact (hiff _).mpr ⟨l, ListInv_of_fields cfg s s' l hl g1 g2
      (fun a ha => by rw [g4]; exact (hl.2.2.2 a ha).2)⟩
  · intro s v s' h h32 hown hk
    obtain ⟨l, hl⟩ := (hiff s).mp h
    have hv := kfree_ret_valid cfg v s s' hk
    obtain ⟨s2, hk2, hcase, _⟩ := ListInv_kfree cfg v s l hl hv h32 hown
    rw [hk] at hk2
    injection hk2 with _ he
    subst he
    rcases hcase with ⟨_, h'⟩ | ⟨_, h'⟩
    · exact (hiff _).mpr ⟨_, h'⟩
    · exact (hiff _).mpr ⟨_, h'⟩
  · intro s0 vstart vend fuel h0 hc hw1 hw2 hvalid hfuel
    have hk3 : PGROUNDUP vstart + PGSIZE * frameCount vstart vend < 4294967296 := by
      unfold frameCount PGSIZE at *
      omega
    have hinj' : ∀ a ∈ seededFrames vstart vend, ∀ b ∈ seededFrames vstart vend,
        cfg.get_index_pte a = cfg.get_index_pte b → a = b := by
      intro a ha b hb hab
      have h1 := framesFrom_lt _ _ _ ha
      have h2 := framesFrom_lt _ _ _ hb
      exact hinj a b (by omega) (by omega) (hvalid a ha).1 (hvalid b hb).1 hab
    obtain ⟨s1, hr, hinv, _⟩ :=
      freerange_seeds_ListInv cfg s0 vstart vend fuel h0 hc hw1 hw2 hvalid hinj' hfuel
    exact ⟨s1, hr, (hiff _).mpr ⟨_, hinv⟩⟩

theorem xv6_IndexInjective : IndexInjective xv6 := by
  intro a b ha hb ha0 hb0 hab
  unfold PGSIZE at ha0 hb0
  have hab' : (a + 4294967296 - 0x80000000) % 4294967296 / 4096
      = (b + 4294967296 - 0x80000000) % 4294967296 / 4096 := hab
  omega

/-- C20, instance: in the xv6 environment, popping the single free frame of `oneFree`
keeps the free list well-formed. -/
theorem C20_free_list_well_formed_witness :
    FreeListWF xv6 oneFree ∧ FreeListWF xv6 (kalloc xv6 oneFree).2 :=
  have hwf : FreeListWF xv6 oneFree :=
    ⟨by decide, [0x80400000], by decide, by decide, by decide⟩
  ⟨hwf, (C20_free_list_well_formed xv6 xv6_IndexInjective).1 oneFree hwf⟩

end Kalloc
